import Mathlib

/-!
Verification of the hospital patient-flow discrete-event simulation
(`config.py`, `hospital_model.py`, `run_sim.py`).

The embedding models the SimPy execution semantics at the event level:

* simulated time is a rational number (`Time`);
* the event queue holds `(time, priority, seq)`-ordered events, where
  priority 0 corresponds to SimPy's `URGENT` (process initialization and
  the `run(until=...)` stop event) and priority 1 to `NORMAL` (timeouts,
  request grants, release dispatches); ties are broken by the global
  insertion sequence number, exactly as SimPy's heap does;
* a `simpy.Resource` is a capacity, a list of current users and a FIFO
  wait queue; a request joins the tail of the wait queue and the queue
  head is granted at once when a unit is free (so a newcomer is granted
  immediately only when nobody was waiting), a release removes the user
  synchronously and schedules a dispatch event that hands the freed
  unit to the head of the wait queue — mirroring SimPy's
  `Request`/`Release` event processing and head-first `_trigger_put`;
* each process (`patient_generator`, `monitor`, and one `patient_flow`
  per patient) is a state machine resumed by dispatched events; the
  `patient_flow` stages follow the source line by line, including the
  fact that in blocking mode the `with or_res.request()` block is only
  exited (and hence the OR released) after the recovery timeout;
* `random.expovariate(1/mean)` samples are modelled as `mean * u` where
  `u` is the next value of an abstract non-negative draw stream; the
  stream obtained from `random.seed(v)` is an abstract function of `v`.
-/

namespace HospitalSim

/-- Simulated time, in minutes (a real scalar in the code). -/
abbrev Time := ℚ

/-- The per-patient data built by `patient_generator`: id, arrival time
and the three service durations sampled at creation. -/
structure Patient where
  id : Nat
  created_at : Time
  prep_time : Time
  op_time : Time
  rec_time : Time
  deriving DecidableEq

/-- The per-patient timing dict appended to `metrics["patient_times"]`
at the end of `patient_flow` (the `end` key is named `end_rec` here). -/
structure PatientRecord where
  id : Nat
  arrival : Time
  end_rec : Time
  total_time : Time
  prep_wait : Time
  or_wait : Time
  rec_wait : Time
  deriving DecidableEq

/-- The `metrics` dictionary created in `run_sim`. -/
structure Metrics where
  completed : Nat
  patient_times : List PatientRecord
  prep_q : List (Time × Nat)
  or_q : List (Time × Nat)
  rec_q : List (Time × Nat)
  or_util : List (Time × ℚ)
  deriving DecidableEq

/-- The keys of the `metrics` dictionary as constructed in `run_sim`
(lines 39-46 of `run_sim.py`); the two keys mutated by `patient_flow`
are `completed` and `patient_times`, the four others by `monitor`. -/
def metricsKeys : List String :=
  ["completed", "patient_times", "prep_q", "or_q", "rec_q", "or_util"]

/-- A `simpy.Resource`: fixed capacity, list of current users (their
process ids) and the FIFO wait queue of pending requests. `count` in
SimPy is the length of `users`. -/
structure Resrc where
  capacity : Nat
  users : List Nat
  queue : List Nat
  deriving DecidableEq

/-- Names of the three resources built in `run_sim`. -/
inductive RName
  | prep
  | op
  | recovery
  deriving DecidableEq

/-- The suspension points of `patient_flow`, in source order. -/
inductive Stage
  | created      -- process object exists, body not started yet
  | waitPrep     -- suspended on `yield req` (prep request)
  | prepping     -- suspended on `yield env.timeout(prep_time)`
  | waitOR       -- suspended on `yield or_req`
  | operating    -- suspended on `yield env.timeout(op_time)`
  | waitRec      -- suspended on `yield rec_req`
  | recovering   -- suspended on `yield env.timeout(rec_time)`
  | done
  deriving DecidableEq

/-- The resumable per-patient context: the patient data plus the local
timestamp variables of `patient_flow`. -/
structure FlowState where
  patient : Patient
  stage : Stage
  arrival_to_prep_q : Time := 0
  start_prep : Time := 0
  end_prep : Time := 0
  arrival_to_or_q : Time := 0
  start_op : Time := 0
  end_op : Time := 0
  arrival_to_rec_q : Time := 0
  start_rec : Time := 0
  end_rec : Time := 0
  deriving DecidableEq

/-- What a scheduled event does when dispatched. Process id 0 is the
`patient_generator` process, 1 the `monitor` process, and ids `≥ 2` are
`patient_flow` processes (patient `i` runs as process `i + 1`). -/
inductive Act
  | initP (pid : Nat)        -- simpy `Initialize` of process `pid`
  | resume (pid : Nat)       -- a timeout or request grant resuming `pid`
  | relDispatch (r : RName)  -- a `Release` event handing a unit on
  | untilEvt                 -- the `env.run(until=...)` stop event
  deriving DecidableEq

/-- A scheduled event: due time, priority (0 = URGENT, 1 = NORMAL) and
insertion sequence number, as in SimPy's event heap. -/
structure Ev where
  time : Time
  prio : Nat
  seq : Nat
  act : Act
  deriving DecidableEq

/-- The configuration dictionary (`CONFIG` in `config.py`). Capacities
are natural numbers; a configured value of 0 stands for any
non-positive capacity. -/
structure Cfg where
  sim_duration : Time
  random_seed : Option Nat
  interarrival_mean : Time
  prep_units : Nat
  op_units : Nat
  recovery_units : Nat
  prep_mean : Time
  op_mean : Time
  recovery_mean : Time
  monitor_interval : Time
  block_or_until_recovery : Bool
  deriving DecidableEq

/-- The full simulator state: clock, event heap, resources, process
table, the generator's patient counter, the RNG cursor, the metrics
store, and whether the `until` event has fired. -/
structure SimState where
  now : Time
  nextSeq : Nat
  events : List Ev
  prep : Resrc
  op : Resrc
  recovery : Resrc
  flows : Nat → Option FlowState
  genCount : Nat
  rngIdx : Nat
  metrics : Metrics
  stopped : Bool

/-- Strict heap order on events: lexicographic on (time, prio, seq),
with `≤` on the final component (sequence numbers are unique, so this
only matters for stability). -/
def evLE (a b : Ev) : Bool :=
  decide (a.time < b.time) ||
    (decide (a.time = b.time) &&
      (decide (a.prio < b.prio) ||
        (decide (a.prio = b.prio) && decide (a.seq ≤ b.seq))))

/-- Ordered insertion into the event list (the heap). -/
def insertEv (e : Ev) : List Ev → List Ev
  | [] => [e]
  | x :: xs => if evLE e x then e :: x :: xs else x :: insertEv e xs

/-- Schedule an action at absolute time `t` with priority `prio`,
consuming the next sequence number. -/
def schedule (s : SimState) (t : Time) (prio : Nat) (a : Act) : SimState :=
  { s with events := insertEv ⟨t, prio, s.nextSeq, a⟩ s.events,
           nextSeq := s.nextSeq + 1 }

/-- Read a resource by name. -/
def getR (s : SimState) : RName → Resrc
  | .prep => s.prep
  | .op => s.op
  | .recovery => s.recovery

/-- Write a resource by name. -/
def setR (s : SimState) (r : RName) (x : Resrc) : SimState :=
  match r with
  | .prep => { s with prep := x }
  | .op => { s with op := x }
  | .recovery => { s with recovery := x }

/-- Update the process table entry of `pid`. -/
def updFlow (s : SimState) (pid : Nat) (f : FlowState) : SimState :=
  { s with flows := fun x => if x = pid then some f else s.flows x }

/-- Replace the metrics store (a mutation of the shared `metrics`
dictionary). -/
def setMetrics (s : SimState) (m : Metrics) : SimState :=
  { s with metrics := m }

/-- `res.request()`: SimPy's `Put.__init__` appends the new `Request`
to the tail of `put_queue` and calls `_trigger_put`, which examines
only the head of the queue: when a unit is free the head is granted
(appended to `users`, its `Request` succeeds, resuming its process at
the current time with NORMAL priority) and popped.  A newcomer is
therefore granted immediately only when the queue was empty; if the
queue is non-empty and a unit happens to be free, the queue head is
granted and the newcomer stays queued at the tail; with no free unit
every request stays queued in FIFO order. -/
def request (s : SimState) (r : RName) (pid : Nat) : SimState :=
  if (getR s r).users.length < (getR s r).capacity then
    match (getR s r).queue with
    | [] =>
      schedule (setR s r { getR s r with users := (getR s r).users ++ [pid] })
        s.now 1 (.resume pid)
    | h :: t =>
      schedule (setR s r { getR s r with users := (getR s r).users ++ [h], queue := t ++ [pid] })
        s.now 1 (.resume h)
  else
    setR s r { getR s r with queue := (getR s r).queue ++ [pid] }

/-- `res.release(req)` at a `with` block exit: the user is removed
synchronously and a `Release` event is scheduled at the current time;
its processing (`relDispatch`) hands the unit to the queue head. -/
def release (s : SimState) (r : RName) (pid : Nat) : SimState :=
  schedule (setR s r { getR s r with users := (getR s r).users.erase pid })
    s.now 1 (.relDispatch r)

/-- Processing of a `Release` event: SimPy's `_trigger_put` examines
the head of the wait queue and grants it a unit when one is free. -/
def runRelDispatch (s : SimState) (r : RName) : SimState :=
  match (getR s r).queue with
  | [] => s
  | h :: t =>
    if (getR s r).users.length < (getR s r).capacity then
      schedule (setR s r { getR s r with users := (getR s r).users ++ [h], queue := t })
        s.now 1 (.resume h)
    else s

/-- `config.expovariate(mean)` = `random.expovariate(1/mean)`: the k-th
draw of the underlying generator is abstracted as `stream k`, a
unit-exponential sample, so the returned value is `mean * stream k`. -/
def sampleExpo (mean : Time) (stream : Nat → ℚ) (k : Nat) : Time :=
  mean * stream k

/-- One iteration of the `patient_generator` loop: build the patient
(three service-time draws), start its `patient_flow` process, draw the
interarrival delay and sleep for it. -/
def runGen (cfg : Cfg) (stream : Nat → ℚ) (s : SimState) : SimState :=
  let i := s.genCount + 1
  let p : Patient :=
    { id := i, created_at := s.now,
      prep_time := sampleExpo cfg.prep_mean stream s.rngIdx,
      op_time := sampleExpo cfg.op_mean stream (s.rngIdx + 1),
      rec_time := sampleExpo cfg.recovery_mean stream (s.rngIdx + 2) }
  let ia := sampleExpo cfg.interarrival_mean stream (s.rngIdx + 3)
  let pid := i + 1
  let s1 := { updFlow s pid { patient := p, stage := .created } with
              genCount := i, rngIdx := s.rngIdx + 4 }
  let s2 := schedule s1 s1.now 0 (.initP pid)
  schedule s2 (s2.now + ia) 1 (.resume 0)

/-- One iteration of the `monitor` loop: append the three queue-length
samples and the OR utilization `count / capacity`, then sleep for the
interval. -/
def runMonitor (cfg : Cfg) (s : SimState) : SimState :=
  let t := s.now
  let m := s.metrics
  let m' := { m with
    prep_q := m.prep_q ++ [(t, s.prep.queue.length)],
    or_q := m.or_q ++ [(t, s.op.queue.length)],
    rec_q := m.rec_q ++ [(t, s.recovery.queue.length)],
    or_util := m.or_util ++ [(t, (s.op.users.length : ℚ) / (s.op.capacity : ℚ))] }
  schedule (setMetrics s m') (t + cfg.monitor_interval) 1 (.resume 1)

/-- First segment of `patient_flow`: request a prep unit, remembering
`arrival_to_prep_q = env.now`, and suspend on the request. -/
def runPatientInit (s : SimState) (pid : Nat) : SimState :=
  match s.flows pid with
  | none => s
  | some f =>
    request (updFlow s pid { f with stage := .waitPrep, arrival_to_prep_q := s.now }) .prep pid

/-- Resumption of a suspended `patient_flow`, by stage, translated
segment by segment from the source.  In blocking mode the recovery
request is made while the OR is still held, and — because the recovery
timeout sits inside the `with or_res.request()` block — the OR is
released together with the recovery unit only after the recovery
timeout fires. -/
def runPatientResume (cfg : Cfg) (s : SimState) (pid : Nat) : SimState :=
  match s.flows pid with
  | none => s
  | some f =>
    match f.stage with
    | .waitPrep =>
      -- `start_prep = env.now; yield env.timeout(prep_time)`
      schedule (updFlow s pid { f with stage := .prepping, start_prep := s.now })
        (s.now + f.patient.prep_time) 1 (.resume pid)
    | .prepping =>
      -- prep `with` block exits (release), then the OR is requested
      let s1 := updFlow s pid
        { f with stage := .waitOR, end_prep := s.now, arrival_to_or_q := s.now }
      request (release s1 .prep pid) .op pid
    | .waitOR =>
      -- `start_op = env.now; yield env.timeout(op_time)`
      schedule (updFlow s pid { f with stage := .operating, start_op := s.now })
        (s.now + f.patient.op_time) 1 (.resume pid)
    | .operating =>
      let s1 := updFlow s pid
        { f with stage := .waitRec, end_op := s.now, arrival_to_rec_q := s.now }
      if cfg.block_or_until_recovery then
        -- blocking mode: request recovery while still holding the OR
        request s1 .recovery pid
      else
        -- non-blocking mode: the OR `with` block exits first
        request (release s1 .op pid) .recovery pid
    | .waitRec =>
      -- `start_rec = env.now; yield env.timeout(rec_time)`
      schedule (updFlow s pid { f with stage := .recovering, start_rec := s.now })
        (s.now + f.patient.rec_time) 1 (.resume pid)
    | .recovering =>
      -- the `with` blocks exit: recovery released, and in blocking mode
      -- the OR — still held — is released only now; then the metrics
      -- are recorded (counter increment and append in the same segment)
      let f' := { f with stage := .done, end_rec := s.now }
      let s1 := updFlow s pid f'
      let s2 :=
        if cfg.block_or_until_recovery then
          release (release s1 .recovery pid) .op pid
        else
          release s1 .recovery pid
      let rcd : PatientRecord :=
        { id := f.patient.id, arrival := f.patient.created_at, end_rec := s.now,
          total_time := s.now - f.patient.created_at,
          prep_wait := f.start_prep - f.arrival_to_prep_q,
          or_wait := f.start_op - f.arrival_to_or_q,
          rec_wait := f.start_rec - f.arrival_to_rec_q }
      setMetrics s2 { s2.metrics with
          completed := s2.metrics.completed + 1,
          patient_times := s2.metrics.patient_times ++ [rcd] }
    | .created => s
    | .done => s

/-- Dispatch one popped event. -/
def dispatch (cfg : Cfg) (stream : Nat → ℚ) (s : SimState) (e : Ev) : SimState :=
  match e.act with
  | .untilEvt => { s with stopped := true }
  | .initP 0 => runGen cfg stream s
  | .initP 1 => runMonitor cfg s
  | .initP pid => runPatientInit s pid
  | .resume 0 => runGen cfg stream s
  | .resume 1 => runMonitor cfg s
  | .resume pid => runPatientResume cfg s pid
  | .relDispatch r => runRelDispatch s r

/-- One scheduler step: pop the earliest event, advance the clock to
its due time and dispatch it; once the `until` event has fired the
state is final. -/
def step (cfg : Cfg) (stream : Nat → ℚ) (s : SimState) : SimState :=
  if s.stopped then s
  else
    match s.events with
    | [] => s
    | e :: rest => dispatch cfg stream { s with now := e.time, events := rest } e

/-- Iterated scheduler steps. -/
def runSteps (cfg : Cfg) (stream : Nat → ℚ) : Nat → SimState → SimState
  | 0, s => s
  | n + 1, s => runSteps cfg stream n (step cfg stream s)

/-- The empty metrics store built in `run_sim`. -/
def emptyMetrics : Metrics :=
  { completed := 0, patient_times := [], prep_q := [], or_q := [], rec_q := [],
    or_util := [] }

/-- The state after `run_sim` has built the environment: resources at
their configured capacities, the generator and monitor processes
started (their `Initialize` events at time 0, URGENT priority), and the
`until` stop event of `env.run(until=sim_duration)` scheduled. -/
def initState (cfg : Cfg) : SimState :=
  let s0 : SimState :=
    { now := 0, nextSeq := 0, events := [],
      prep := { capacity := cfg.prep_units, users := [], queue := [] },
      op := { capacity := cfg.op_units, users := [], queue := [] },
      recovery := { capacity := cfg.recovery_units, users := [], queue := [] },
      flows := fun _ => none, genCount := 0, rngIdx := 0,
      metrics := emptyMetrics, stopped := false }
  let s1 := schedule s0 0 0 (.initP 0)
  let s2 := schedule s1 0 0 (.initP 1)
  schedule s2 cfg.sim_duration 0 .untilEvt

/-- The final state of the event loop from the initial state. -/
def runState (cfg : Cfg) (stream : Nat → ℚ) (fuel : Nat) : SimState :=
  runSteps cfg stream fuel (initState cfg)

/-- The only error raised before the event loop starts: the
`simpy.Resource` constructor raises `ValueError('"capacity" must be >
0.')` for a non-positive capacity.  `run_sim` itself performs no
configuration validation. -/
inductive SimErr
  | capacityNotPositive
  deriving DecidableEq

/-- What `run_sim` does before any simulation event runs: building the
three resources, which rejects non-positive capacities (and nothing
else). -/
def eagerError (cfg : Cfg) : Option SimErr :=
  if cfg.prep_units = 0 ∨ cfg.op_units = 0 ∨ cfg.recovery_units = 0 then
    some .capacityNotPositive
  else none

/-- `seed_all`: a present seed replaces the global generator's stream
by the stream determined by the seed; an absent seed leaves the ambient
stream in place. -/
def seedAllStream (seedStream : Nat → Nat → ℚ) (ambient : Nat → ℚ) :
    Option Nat → (Nat → ℚ)
  | some v => seedStream v
  | none => ambient

/-- The returned `hospital` dictionary: the three resources and the
metrics store. -/
structure RunOut where
  prep : Resrc
  op : Resrc
  recovery : Resrc
  metrics : Metrics
  deriving DecidableEq

/-- `run_sim(config)`: seed the global generator, build the resources
(non-positive capacities raise), start the generator and monitor
processes, run the event loop to the horizon and return the hospital
state.  `seedStream v` is the draw stream after `random.seed(v)`;
`ambient` is the pre-existing global stream used when no seed is
given; `fuel` bounds the number of scheduler steps. -/
def run_sim (seedStream : Nat → Nat → ℚ) (ambient : Nat → ℚ) (cfg : Cfg)
    (fuel : Nat) : Except SimErr RunOut :=
  match eagerError cfg with
  | some e => .error e
  | none =>
    let stream := seedAllStream seedStream ambient cfg.random_seed
    let s := runState cfg stream fuel
    .ok { prep := s.prep, op := s.op, recovery := s.recovery, metrics := s.metrics }

/-! ## Concrete scenarios -/

/-- A draw stream whose every unit-exponential sample is 1, so each
sampled duration equals its configured mean. -/
def streamOnes : Nat → ℚ := fun _ => 1

/-- The single-patient no-contention scenario of the spec: capacities
1/1/1, service times 10/5/8 (means 10/5/8 with unit draws), an
interarrival mean of 1000 so no second patient arrives before the
horizon of 30, blocking mode. -/
def cfgSingleBlock : Cfg :=
  { sim_duration := 30, random_seed := some 1, interarrival_mean := 1000,
    prep_units := 1, op_units := 1, recovery_units := 1,
    prep_mean := 10, op_mean := 5, recovery_mean := 8,
    monitor_interval := 50, block_or_until_recovery := true }

/-- The same scenario in non-blocking mode. -/
def cfgSingleNon : Cfg := { cfgSingleBlock with block_or_until_recovery := false }

/-- The single-patient blocking scenario with a monitor interval of 20,
so the monitor samples at t = 20 — after recovery was granted (t = 15)
and before the recovery timeout fires (t = 23). -/
def cfgMid : Cfg := { cfgSingleBlock with monitor_interval := 20 }

/-- Draws for the forced-OR-blocking scenario: patient 1 has service
times 1/1/20, the second arrival comes 2 minutes after the first, and
patient 2 has service times 1/1/5 (all means are 1); later draws are
1000 so no third patient arrives before the horizon. -/
def streamBlocked : Nat → ℚ := fun k =>
  match k with
  | 0 => 1
  | 1 => 1
  | 2 => 20
  | 3 => 2
  | 4 => 1
  | 5 => 1
  | 6 => 5
  | _ => 1000

/-- Forced-OR-blocking scenario: one recovery bed, held by patient 1
for 20 minutes, while patient 2 finishes surgery at t = 4 and must wait
18 minutes (until t = 22) for the recovery bed, holding an OR unit. -/
def cfgBlocked : Cfg :=
  { sim_duration := 40, random_seed := some 1, interarrival_mean := 1,
    prep_units := 2, op_units := 2, recovery_units := 1,
    prep_mean := 1, op_mean := 1, recovery_mean := 1,
    monitor_interval := 100, block_or_until_recovery := true }

/-- A configuration with positive capacities but non-positive mean
durations and a non-positive monitor interval. -/
def cfgBadMeans : Cfg :=
  { sim_duration := 10, random_seed := some 1, interarrival_mean := 5,
    prep_units := 1, op_units := 1, recovery_units := 1,
    prep_mean := 0, op_mean := 0, recovery_mean := 0,
    monitor_interval := 0, block_or_until_recovery := true }

/-! ## Invariant predicates -/

/-- The configured capacity of each resource, as wired in `run_sim`. -/
def capOf (cfg : Cfg) : RName → Nat
  | .prep => cfg.prep_units
  | .op => cfg.op_units
  | .recovery => cfg.recovery_units

/-- The wait stage a patient is in while sitting in a given resource's
queue. -/
def waitStage : RName → Stage
  | .prep => .waitPrep
  | .op => .waitOR
  | .recovery => .waitRec

/-- Whether an event belongs to the monitor process. -/
def isMonEvB (e : Ev) : Bool :=
  decide (e.act = .initP 1 ∨ e.act = .resume 1)

/-- Whether an event belongs to patient process `pid`. -/
def refsPidB (pid : Nat) (e : Ev) : Bool :=
  decide (e.act = .initP pid ∨ e.act = .resume pid)

/-- The timestamp relations already established for a flow, by stage:
the prep request was made at the patient's creation time, the OR
request at `start_prep + prep_time` (the prep timer's due time), and
the recovery request at `start_op + op_time` (the operation timer's due
time). -/
def StageOK (f : FlowState) : Prop :=
  match f.stage with
  | .created => True
  | .waitPrep => f.arrival_to_prep_q = f.patient.created_at
  | .prepping => f.arrival_to_prep_q = f.patient.created_at
  | .waitOR => f.arrival_to_prep_q = f.patient.created_at ∧
      f.arrival_to_or_q = f.start_prep + f.patient.prep_time
  | .operating => f.arrival_to_prep_q = f.patient.created_at ∧
      f.arrival_to_or_q = f.start_prep + f.patient.prep_time
  | .waitRec => f.arrival_to_prep_q = f.patient.created_at ∧
      f.arrival_to_or_q = f.start_prep + f.patient.prep_time ∧
      f.arrival_to_rec_q = f.start_op + f.patient.op_time
  | .recovering => f.arrival_to_prep_q = f.patient.created_at ∧
      f.arrival_to_or_q = f.start_prep + f.patient.prep_time ∧
      f.arrival_to_rec_q = f.start_op + f.patient.op_time
  | .done => True

/-- The stage-decomposition identity of a timing record against the
patient's sampled durations. -/
def recOK (rcd : PatientRecord) (p : Patient) : Prop :=
  rcd.total_time = rcd.prep_wait + p.prep_time + rcd.or_wait + p.op_time +
    rcd.rec_wait + p.rec_time

/-- What a queued event may look like when it references a patient
process (relative to a process table `fl`): an `Initialize` is due at
the patient's creation time, and a resumption of a timed suspension is
due exactly when the corresponding timer was set to fire. -/
def evOK (fl : Nat → Option FlowState) (e : Ev) : Prop :=
  (∀ pid, 2 ≤ pid → e.act = .initP pid →
    ∃ f, fl pid = some f ∧ f.stage = .created ∧ e.time = f.patient.created_at) ∧
  (∀ pid, 2 ≤ pid → e.act = .resume pid →
    ∃ f, fl pid = some f ∧ f.stage ≠ .created ∧ f.stage ≠ .done ∧
      (f.stage = .prepping → e.time = f.start_prep + f.patient.prep_time) ∧
      (f.stage = .operating → e.time = f.start_op + f.patient.op_time) ∧
      (f.stage = .recovering → e.time = f.start_rec + f.patient.rec_time))

/-- The global bookkeeping invariant of the event loop used to derive
the timing decomposition: every record in the metrics satisfies the
decomposition, flows satisfy their stage relations, queued events are
due at the right times, each patient has at most one pending event,
resource queues hold distinct suspended patients in the matching wait
stage with no pending event, and patient process ids are bounded by the
generator's counter. -/
def Inv10 (s : SimState) : Prop :=
  (∀ rcd ∈ s.metrics.patient_times, ∃ pid f, s.flows pid = some f ∧
    f.patient.id = rcd.id ∧ recOK rcd f.patient) ∧
  (∀ pid f, s.flows pid = some f → StageOK f) ∧
  (∀ e ∈ s.events, evOK s.flows e) ∧
  (∀ pid, 2 ≤ pid → (s.events.filter (refsPidB pid)).length ≤ 1) ∧
  (∀ r, (getR s r).queue.Nodup ∧ ∀ x ∈ (getR s r).queue,
    2 ≤ x ∧ (∃ f, s.flows x = some f ∧ f.stage = waitStage r) ∧
    (s.events.filter (refsPidB x)).length = 0) ∧
  (∀ pid f, s.flows pid = some f → 2 ≤ pid ∧ pid ≤ s.genCount + 1)

/-- The monitor-cadence invariant: the four snapshot series share their
timestamp sequence `0, m, 2m, ...`, any pending monitor event is due at
the next multiple, there is at most one pending monitor event, and
resource queues never hold the generator or monitor process. -/
def MonInv (cfg : Cfg) (s : SimState) : Prop :=
  s.metrics.or_util.map Prod.fst =
    (List.range s.metrics.or_util.length).map
      (fun (i : ℕ) => (i : ℚ) * cfg.monitor_interval) ∧
  s.metrics.prep_q.map Prod.fst = s.metrics.or_util.map Prod.fst ∧
  s.metrics.or_q.map Prod.fst = s.metrics.or_util.map Prod.fst ∧
  s.metrics.rec_q.map Prod.fst = s.metrics.or_util.map Prod.fst ∧
  (∀ e ∈ s.events, isMonEvB e = true →
    e.time = (s.metrics.or_util.length : ℚ) * cfg.monitor_interval) ∧
  (s.events.filter isMonEvB).length ≤ 1 ∧
  (∀ r, ∀ x ∈ (getR s r).queue, 2 ≤ x)

/-- The capacity invariant: each resource's user count never exceeds
its capacity, the capacity is the configured one, and every recorded OR
utilization sample lies in [0, 1]. -/
def Inv7 (cfg : Cfg) (s : SimState) : Prop :=
  (∀ r, (getR s r).users.length ≤ (getR s r).capacity ∧
    (getR s r).capacity = capOf cfg r) ∧
  (∀ p ∈ s.metrics.or_util, 0 ≤ p.2 ∧ p.2 ≤ 1)

/-! ## Projection lemmas for the state operations -/

theorem setR_metrics (s : SimState) (r : RName) (x : Resrc) :
    (setR s r x).metrics = s.metrics := by cases r <;> rfl

theorem setR_flows (s : SimState) (r : RName) (x : Resrc) :
    (setR s r x).flows = s.flows := by cases r <;> rfl

theorem setR_events (s : SimState) (r : RName) (x : Resrc) :
    (setR s r x).events = s.events := by cases r <;> rfl

theorem setR_now (s : SimState) (r : RName) (x : Resrc) :
    (setR s r x).now = s.now := by cases r <;> rfl

theorem setR_genCount (s : SimState) (r : RName) (x : Resrc) :
    (setR s r x).genCount = s.genCount := by cases r <;> rfl

theorem getR_setR (s : SimState) (r r' : RName) (x : Resrc) :
    getR (setR s r x) r' = if r' = r then x else getR s r' := by
  cases r <;> cases r' <;> simp [getR, setR]

theorem getR_schedule (s : SimState) (t : Time) (p : Nat) (a : Act) (r : RName) :
    getR (schedule s t p a) r = getR s r := by cases r <;> rfl

theorem getR_updFlow (s : SimState) (pid : Nat) (f : FlowState) (r : RName) :
    getR (updFlow s pid f) r = getR s r := by cases r <;> rfl

theorem schedule_metrics (s : SimState) (t : Time) (p : Nat) (a : Act) :
    (schedule s t p a).metrics = s.metrics := rfl

theorem schedule_flows (s : SimState) (t : Time) (p : Nat) (a : Act) :
    (schedule s t p a).flows = s.flows := rfl

theorem schedule_now (s : SimState) (t : Time) (p : Nat) (a : Act) :
    (schedule s t p a).now = s.now := rfl

theorem schedule_genCount (s : SimState) (t : Time) (p : Nat) (a : Act) :
    (schedule s t p a).genCount = s.genCount := rfl

theorem schedule_events (s : SimState) (t : Time) (p : Nat) (a : Act) :
    (schedule s t p a).events = insertEv ⟨t, p, s.nextSeq, a⟩ s.events := rfl

theorem updFlow_metrics (s : SimState) (pid : Nat) (f : FlowState) :
    (updFlow s pid f).metrics = s.metrics := rfl

theorem updFlow_events (s : SimState) (pid : Nat) (f : FlowState) :
    (updFlow s pid f).events = s.events := rfl

theorem updFlow_now (s : SimState) (pid : Nat) (f : FlowState) :
    (updFlow s pid f).now = s.now := rfl

theorem updFlow_genCount (s : SimState) (pid : Nat) (f : FlowState) :
    (updFlow s pid f).genCount = s.genCount := rfl

theorem updFlow_flows_apply (s : SimState) (pid x : Nat) (f : FlowState) :
    (updFlow s pid f).flows x = if x = pid then some f else s.flows x := rfl

theorem setMetrics_metrics (s : SimState) (m : Metrics) :
    (setMetrics s m).metrics = m := rfl

theorem setMetrics_flows (s : SimState) (m : Metrics) :
    (setMetrics s m).flows = s.flows := rfl

theorem setMetrics_events (s : SimState) (m : Metrics) :
    (setMetrics s m).events = s.events := rfl

theorem setMetrics_genCount (s : SimState) (m : Metrics) :
    (setMetrics s m).genCount = s.genCount := rfl

theorem getR_setMetrics (s : SimState) (m : Metrics) (r : RName) :
    getR (setMetrics s m) r = getR s r := by cases r <;> rfl

theorem mem_insertEv {a e : Ev} {l : List Ev} :
    a ∈ insertEv e l ↔ a = e ∨ a ∈ l := by
  induction l with
  | nil => simp [insertEv]
  | cons x xs ih =>
    unfold insertEv
    by_cases h : evLE e x = true
    · simp [h]
    · simp only [h, if_false, Bool.false_eq_true, List.mem_cons, ih]
      tauto

theorem filter_insertEv_length (q : Ev → Bool) (e : Ev) (l : List Ev) :
    ((insertEv e l).filter q).length =
      (l.filter q).length + (if q e then 1 else 0) := by
  induction l with
  | nil => cases hq : q e <;> simp [insertEv, List.filter, hq]
  | cons x xs ih =>
    unfold insertEv
    by_cases h : evLE e x = true
    · simp only [h, if_true]
      cases hq : q e <;> cases hx : q x <;>
        simp [List.filter, hq, hx, Nat.add_comm, Nat.add_left_comm]
    · simp only [h, if_false, Bool.false_eq_true]
      cases hx : q x <;>
        simp [List.filter, hx, ih, Nat.add_comm, Nat.add_left_comm]

theorem request_metrics (s : SimState) (r : RName) (pid : Nat) :
    (request s r pid).metrics = s.metrics := by
  unfold request
  split
  · split <;> simp [schedule_metrics, setR_metrics]
  · simp [setR_metrics]

theorem request_flows (s : SimState) (r : RName) (pid : Nat) :
    (request s r pid).flows = s.flows := by
  unfold request
  split
  · split <;> simp [schedule_flows, setR_flows]
  · simp [setR_flows]

theorem request_now (s : SimState) (r : RName) (pid : Nat) :
    (request s r pid).now = s.now := by
  unfold request
  split
  · split <;> simp [schedule_now, setR_now]
  · simp [setR_now]

theorem request_genCount (s : SimState) (r : RName) (pid : Nat) :
    (request s r pid).genCount = s.genCount := by
  unfold request
  split
  · split <;> simp [schedule_genCount, setR_genCount]
  · simp [setR_genCount]

theorem release_metrics (s : SimState) (r : RName) (pid : Nat) :
    (release s r pid).metrics = s.metrics := by
  unfold release
  simp [schedule_metrics, setR_metrics]

theorem release_flows (s : SimState) (r : RName) (pid : Nat) :
    (release s r pid).flows = s.flows := by
  unfold release
  simp [schedule_flows, setR_flows]

theorem release_now (s : SimState) (r : RName) (pid : Nat) :
    (release s r pid).now = s.now := by
  unfold release
  simp [schedule_now, setR_now]

theorem release_genCount (s : SimState) (r : RName) (pid : Nat) :
    (release s r pid).genCount = s.genCount := by
  unfold release
  simp [schedule_genCount, setR_genCount]

theorem runRelDispatch_metrics (s : SimState) (r : RName) :
    (runRelDispatch s r).metrics = s.metrics := by
  unfold runRelDispatch
  split
  · rfl
  · split
    · simp [schedule_metrics, setR_metrics]
    · rfl

theorem runRelDispatch_flows (s : SimState) (r : RName) :
    (runRelDispatch s r).flows = s.flows := by
  unfold runRelDispatch
  split
  · rfl
  · split
    · simp [schedule_flows, setR_flows]
    · rfl

theorem runRelDispatch_genCount (s : SimState) (r : RName) :
    (runRelDispatch s r).genCount = s.genCount := by
  unfold runRelDispatch
  split
  · rfl
  · split
    · simp [schedule_genCount, setR_genCount]
    · rfl

theorem runPatientInit_metrics (s : SimState) (pid : Nat) :
    (runPatientInit s pid).metrics = s.metrics := by
  unfold runPatientInit
  split
  · rfl
  · simp [request_metrics, updFlow_metrics]

theorem runGen_metrics (cfg : Cfg) (stream : Nat → ℚ) (s : SimState) :
    (runGen cfg stream s).metrics = s.metrics := rfl

theorem runMonitor_completed (cfg : Cfg) (s : SimState) :
    (runMonitor cfg s).metrics.completed = s.metrics.completed := rfl

theorem runMonitor_patient_times (cfg : Cfg) (s : SimState) :
    (runMonitor cfg s).metrics.patient_times = s.metrics.patient_times := rfl

theorem runPatientResume_metrics (cfg : Cfg) (s : SimState) (pid : Nat) :
    (runPatientResume cfg s pid).metrics = s.metrics ∨
    (∃ rcd,
      (runPatientResume cfg s pid).metrics =
        { s.metrics with
          completed := s.metrics.completed + 1,
          patient_times := s.metrics.patient_times ++ [rcd] }) := by
  unfold runPatientResume
  split
  · exact Or.inl rfl
  · rename_i f hf
    rcases f with ⟨p, stg, a1, sp, ep, a2, so, eo, a3, sr, er⟩
    cases stg
    case created => exact Or.inl rfl
    case waitPrep => exact Or.inl (schedule_metrics ..)
    case prepping => exact Or.inl ((request_metrics ..).trans (release_metrics ..))
    case waitOR => exact Or.inl (schedule_metrics ..)
    case operating =>
      by_cases hb : cfg.block_or_until_recovery
      · simp only [hb, if_true]
        exact Or.inl (request_metrics ..)
      · simp only [hb, if_false]
        exact Or.inl ((request_metrics ..).trans (release_metrics ..))
    case waitRec => exact Or.inl (schedule_metrics ..)
    case recovering =>
      refine Or.inr ⟨⟨p.id, p.created_at, s.now, s.now - p.created_at,
          sp - a1, so - a2, sr - a3⟩, ?_⟩
      by_cases hb : cfg.block_or_until_recovery
      · simp only [hb, if_true]
        rw [setMetrics_metrics, release_metrics, release_metrics, updFlow_metrics]
      · simp only [hb, Bool.false_eq_true, if_false]
        rw [setMetrics_metrics, release_metrics, updFlow_metrics]
    case done => exact Or.inl rfl

/-- Iterating any step-preserved predicate. -/
theorem runSteps_invariant (cfg : Cfg) (stream : Nat → ℚ) (P : SimState → Prop)
    (hstep : ∀ s, P s → P (step cfg stream s)) :
    ∀ n s, P s → P (runSteps cfg stream n s) := by
  intro n
  induction n with
  | zero => intro s h; exact h
  | succ k ih => intro s h; exact ih (step cfg stream s) (hstep s h)

/-! ## Claim theorems -/

set_option maxRecDepth 100000 in
/-- C1 (code evaluation at the failing input): in blocking mode with a
single patient (prep 10, op 5, rec 8), the operation ends and the
recovery unit is granted at t = 15, and recovery runs until t = 23; the
claim (and the code's own docstring and inline comment) says the OR is
released the moment recovery is granted, so at t = 20 the OR count
would be 0 — but the monitor's sample at t = 20 shows OR utilization 1,
because the recovery timeout sits inside the `with or_res.request()`
block and the OR is only released at t = 23. -/
theorem claim1_or_still_held_during_recovery :
    (runState cfgMid streamOnes 40).metrics.or_util = [(0, 0), (20, 1)] ∧
    (runState cfgMid streamOnes 40).metrics.patient_times =
      [⟨1, 0, 23, 23, 0, 0, 0⟩] ∧
    (runState cfgMid streamOnes 40).stopped = true := by
  refine ⟨?_, ?_, ?_⟩ <;> with_unfolding_all rfl

set_option maxRecDepth 400000 in
/-- C2 (counterexample): in the forced-blocking run, patient 2 waits 18
minutes for the recovery bed after its operation timer fires (its
`rec_wait`), yet the metrics dictionary returned by `run_sim` consists
of exactly the six keys built at lines 39-46 of `run_sim.py` — none of
them an aggregate OR-blocked-time metric; `patient_flow` writes only
`completed` and `patient_times`.  (The `or_time_blocked` aggregate
exists only in the alternate `mkB` model in `hospital_model.py`, which
`run_sim` never uses.) -/
theorem claim2_counterexample_no_blocked_aggregate :
    (runState cfgBlocked streamBlocked 80).metrics.patient_times.map
      (fun r => (r.id, r.rec_wait)) = [(1, 0), (2, 18)] ∧
    metricsKeys = ["completed", "patient_times", "prep_q", "or_q", "rec_q", "or_util"] ∧
    "or_time_blocked" ∉ metricsKeys ∧
    (runState cfgBlocked streamBlocked 80).stopped = true := by
  refine ⟨?_, ?_, by decide, ?_⟩ <;> with_unfolding_all rfl

set_option maxRecDepth 400000 in
/-- C2 (amended): the OR-held-waiting-for-recovery interval is
observable only per patient, as the `rec_wait` entry of its timing
record: in the forced-blocking run patient 2's record shows the
18-minute recovery-bed wait (arrival 2, surgery over at 4, recovery
granted at 22, discharge at 27), while no key of the returned metrics
is an aggregate blocked-time total. -/
theorem claim2_amended_blocked_time_per_patient_only :
    (runState cfgBlocked streamBlocked 80).metrics.patient_times =
      [⟨1, 0, 22, 22, 0, 0, 0⟩, ⟨2, 2, 27, 25, 0, 0, 18⟩] ∧
    (∀ k ∈ metricsKeys, k ≠ "or_time_blocked") := by
  refine ⟨?_, by decide⟩
  with_unfolding_all rfl

/-- C3 (counterexample): a configuration with positive capacities but
zero mean durations and a zero monitor interval passes the entire
pre-run phase of `run_sim` without any error — there is no
`InvalidConfiguration` validation; with fuel 0 the run entry returns
the freshly built hospital state. -/
theorem claim3_counterexample_no_eager_validation :
    eagerError cfgBadMeans = none ∧
    cfgBadMeans.prep_mean ≤ 0 ∧ cfgBadMeans.monitor_interval ≤ 0 ∧
    run_sim (fun _ _ => 1) (fun _ => 1) cfgBadMeans 0 =
      .ok ⟨⟨1, [], []⟩, ⟨1, [], []⟩, ⟨1, [], []⟩, emptyMetrics⟩ := by
  refine ⟨?_, by with_unfolding_all decide, by with_unfolding_all decide, ?_⟩ <;>
    with_unfolding_all rfl

/-- C3 (amended): the only configuration check that happens before any
simulation step is the `simpy.Resource` constructor's `ValueError` for
a non-positive capacity; `run_sim` aborts before the run starts exactly
when one of the three capacities is non-positive (so an OR capacity of
0 never reaches the monitor's division), and non-positive means or
monitor intervals are not validated eagerly. -/
theorem claim3_amended_only_capacity_checked (cfg : Cfg)
    (seedStream : Nat → Nat → ℚ) (ambient : Nat → ℚ) (fuel : Nat) :
    ((eagerError cfg).isSome ↔
      cfg.prep_units = 0 ∨ cfg.op_units = 0 ∨ cfg.recovery_units = 0) ∧
    (cfg.op_units = 0 →
      run_sim seedStream ambient cfg fuel = .error .capacityNotPositive) := by
  constructor
  · unfold eagerError
    by_cases h : cfg.prep_units = 0 ∨ cfg.op_units = 0 ∨ cfg.recovery_units = 0
    · simp [h]
    · simp [h]
  · intro h
    unfold run_sim eagerError
    simp [h]

/-- Witness for C3's amended theorem at a concrete zero-OR-capacity
configuration. -/
theorem claim3_amended_only_capacity_checked_witness :
    run_sim (fun _ _ => 1) (fun _ => 1) { cfgBadMeans with op_units := 0 } 5 =
      .error .capacityNotPositive :=
  (claim3_amended_only_capacity_checked { cfgBadMeans with op_units := 0 }
    (fun _ _ => 1) (fun _ => 1) 5).2 rfl

set_option maxRecDepth 100000 in
/-- C4 (counterexample): the monitor process starts at time 0 and takes
its first snapshot immediately, so with a monitor interval of 50 the
first recorded OR-utilization timestamp is 0, not 50: the snapshot
timestamps do not start at the monitor's first interval. -/
theorem claim4_counterexample_first_snapshot_at_zero :
    (runState cfgSingleNon streamOnes 40).metrics.or_util.map Prod.fst = [0] ∧
    cfgSingleNon.monitor_interval = 50 ∧ (0 : ℚ) ≠ 50 ∧
    (runState cfgSingleNon streamOnes 40).stopped = true := by
  refine ⟨?_, ?_, by with_unfolding_all decide, ?_⟩ <;> with_unfolding_all rfl

/-- C5: determinism — when the configuration carries a seed,
`run_sim`'s result does not depend on the pre-existing state of the
global random generator, because `seed_all` reseeds it: two
invocations with the same seeded configuration return identical
hospital states (in particular identical `patient_times` sequences and
identical `prep_q`/`or_q`/`rec_q`/`or_util` series). -/
theorem claim5_seeded_runs_identical (seedStream : Nat → Nat → ℚ)
    (g1 g2 : Nat → ℚ) (cfg : Cfg) (fuel : Nat)
    (h : ∃ v, cfg.random_seed = some v) :
    run_sim seedStream g1 cfg fuel = run_sim seedStream g2 cfg fuel := by
  obtain ⟨v, hv⟩ := h
  unfold run_sim
  cases he : eagerError cfg
  · rw [hv]
    rfl
  · rfl


/-- Witness for C5 at the single-patient configuration and two
different ambient generator states. -/
theorem claim5_seeded_runs_identical_witness :
    run_sim (fun v k => (v : ℚ) + k) (fun _ => 0) cfgSingleBlock 40 =
      run_sim (fun v k => (v : ℚ) + k) (fun _ => 3) cfgSingleBlock 40 :=
  claim5_seeded_runs_identical (fun v k => (v : ℚ) + k) (fun _ => 0)
    (fun _ => 3) cfgSingleBlock 40 ⟨1, rfl⟩

set_option maxRecDepth 100000 in
/-- C6: in the single-server no-contention scenario (all capacities 1,
one patient with prep 10, op 5, rec 8, no further arrivals), the
recorded timing record has `total_time` 23 and all three waits 0,
under either blocking policy, and the run reaches its horizon. -/
theorem claim6_single_patient_no_contention :
    (runState cfgSingleBlock streamOnes 40).metrics.patient_times =
      [⟨1, 0, 23, 23, 0, 0, 0⟩] ∧
    (runState cfgSingleNon streamOnes 40).metrics.patient_times =
      [⟨1, 0, 23, 23, 0, 0, 0⟩] ∧
    (runState cfgSingleBlock streamOnes 40).stopped = true ∧
    (runState cfgSingleNon streamOnes 40).stopped = true := by
  refine ⟨?_, ?_, ?_, ?_⟩ <;> with_unfolding_all rfl

/-- One step preserves `completed = patient_times.length`: only the
final segment of `patient_flow` touches either, and it increments the
counter and appends the record in the same uninterrupted segment. -/
theorem step_completed_matches (cfg : Cfg) (stream : Nat → ℚ) (s : SimState)
    (hs : s.metrics.completed = s.metrics.patient_times.length) :
    (step cfg stream s).metrics.completed =
      (step cfg stream s).metrics.patient_times.length := by
  unfold step
  by_cases hstop : s.stopped = true
  · rw [if_pos hstop]; exact hs
  rw [if_neg hstop]
  cases hev : s.events with
  | nil => exact hs
  | cons e rest =>
    rcases e with ⟨t, prio, seq, act⟩
    cases act with
    | untilEvt => exact hs
    | relDispatch r =>
      simp only [dispatch]
      rw [runRelDispatch_metrics]
      exact hs
    | initP pid =>
      match pid with
      | 0 => simp only [dispatch]; rw [runGen_metrics]; exact hs
      | 1 =>
        simp only [dispatch]
        rw [runMonitor_completed, runMonitor_patient_times]
        exact hs
      | (n + 2) =>
        simp only [dispatch]
        rw [runPatientInit_metrics]
        exact hs
    | resume pid =>
      match pid with
      | 0 => simp only [dispatch]; rw [runGen_metrics]; exact hs
      | 1 =>
        simp only [dispatch]
        rw [runMonitor_completed, runMonitor_patient_times]
        exact hs
      | (n + 2) =>
        simp only [dispatch]
        rcases runPatientResume_metrics cfg
          { s with now := t, events := rest } (n + 2) with h | ⟨rcd, h⟩
        · rw [h]; exact hs
        · rw [h]
          simp [hs]

/-- C9: at every point of every run, the completed-patient counter
equals the number of recorded timing records — the increment and the
append happen in the same cooperative segment (no suspension point
between them), and a patient still in progress when the horizon ends
has contributed to neither. -/
theorem claim9_completed_equals_record_count (cfg : Cfg) (stream : Nat → ℚ)
    (n : Nat) :
    (runState cfg stream n).metrics.completed =
      (runState cfg stream n).metrics.patient_times.length :=
  runSteps_invariant cfg stream
    (fun s => s.metrics.completed = s.metrics.patient_times.length)
    (fun s hs => step_completed_matches cfg stream s hs) n (initState cfg) rfl

/-! ## Resource evolution lemmas -/

theorem getR_popped (s : SimState) (t : Time) (rest : List Ev) (r : RName) :
    getR { s with now := t, events := rest } r = getR s r := by
  cases r <;> rfl

theorem getR_stopSet (s : SimState) (r : RName) :
    getR { s with stopped := true } r = getR s r := by
  cases r <;> rfl

theorem getR_runGen (cfg : Cfg) (stream : Nat → ℚ) (s : SimState) (r : RName) :
    getR (runGen cfg stream s) r = getR s r := by
  cases r <;> rfl

theorem getR_runMonitor (cfg : Cfg) (s : SimState) (r : RName) :
    getR (runMonitor cfg s) r = getR s r := by
  cases r <;> rfl

/-- The three possible outcomes of `request`, at the state level: with
a free unit and an empty queue the newcomer is granted at once; with a
free unit and a non-empty queue the queue head is granted and the
newcomer joins the tail; with no free unit the newcomer joins the
tail. -/
theorem request_split (s : SimState) (r' : RName) (pid : Nat) :
    ((getR s r').users.length < (getR s r').capacity ∧ (getR s r').queue = [] ∧
      request s r' pid =
        schedule (setR s r' { getR s r' with users := (getR s r').users ++ [pid] })
          s.now 1 (.resume pid)) ∨
    (∃ h t2, (getR s r').users.length < (getR s r').capacity ∧
      (getR s r').queue = h :: t2 ∧
      request s r' pid =
        schedule (setR s r' { getR s r' with users := (getR s r').users ++ [h], queue := t2 ++ [pid] })
          s.now 1 (.resume h)) ∨
    (¬(getR s r').users.length < (getR s r').capacity ∧
      request s r' pid =
        setR s r' { getR s r' with queue := (getR s r').queue ++ [pid] }) := by
  unfold request
  by_cases hg : (getR s r').users.length < (getR s r').capacity
  · rw [if_pos hg]
    cases hq : (getR s r').queue with
    | nil => exact Or.inl ⟨hg, rfl, rfl⟩
    | cons h t2 => exact Or.inr (Or.inl ⟨h, t2, hg, rfl, rfl⟩)
  · rw [if_neg hg]
    exact Or.inr (Or.inr ⟨hg, rfl⟩)

/-- `request`, resource by resource: the requested pool either grants
its queue head (the newcomer when the queue was empty), or queues the
newcomer at the tail; other pools are untouched. -/
theorem request_resource (s : SimState) (r' : RName) (pid : Nat) (r : RName) :
    getR (request s r' pid) r =
      if r = r' then
        (if (getR s r').users.length < (getR s r').capacity then
          (match (getR s r').queue with
            | [] => { getR s r' with users := (getR s r').users ++ [pid] }
            | h :: t2 => { getR s r' with users := (getR s r').users ++ [h], queue := t2 ++ [pid] })
        else { getR s r' with queue := (getR s r').queue ++ [pid] })
      else getR s r := by
  rcases request_split s r' pid with ⟨hg, hq, he⟩ | ⟨hd, t2, hg, hq, he⟩ | ⟨hg, he⟩
  · rw [he, getR_schedule, getR_setR, if_pos hg, hq]
  · rw [he, getR_schedule, getR_setR, if_pos hg, hq]
  · rw [he, getR_setR, if_neg hg]

/-- `release` removes the user synchronously; queues are untouched. -/
theorem release_resource (s : SimState) (r' : RName) (pid : Nat) (r : RName) :
    getR (release s r' pid) r =
      if r = r' then { getR s r' with users := (getR s r').users.erase pid }
      else getR s r := by
  unfold release
  rw [getR_schedule, getR_setR]

/-- A `Release` dispatch leaves every resource unchanged, or pops the
head of the released resource's queue and makes it a user. -/
theorem relDispatch_resource (s : SimState) (r' r : RName) :
    getR (runRelDispatch s r') r = getR s r ∨
    (∃ h t2, (getR s r').queue = h :: t2 ∧
      (getR s r').users.length < (getR s r').capacity ∧
      getR (runRelDispatch s r') r =
        (if r = r' then
          { getR s r' with users := (getR s r').users ++ [h], queue := t2 }
        else getR s r)) := by
  unfold runRelDispatch
  cases hq : (getR s r').queue with
  | nil => exact Or.inl rfl
  | cons h t2 =>
    dsimp only
    by_cases hg : (getR s r').users.length < (getR s r').capacity
    · refine Or.inr ⟨h, t2, rfl, hg, ?_⟩
      rw [if_pos hg, getR_schedule, getR_setR]
    · rw [if_neg hg]
      exact Or.inl rfl

/-- C8: the strict FIFO queue discipline of every Resource Pool, as
enforced by each scheduler step.  For every resource, a step either
leaves its user list and wait queue untouched; or releases a unit
(removing one user, queue untouched); or appends a newly arrived
request at the tail of the queue (no grant); or grants a unit directly
to a newcomer while the queue is empty; or grants a unit to the head
of the non-empty queue — never to any request behind it and never to a
newcomer bypassing it — popping the head (with a newly arrived request
possibly appended at the tail in the same step).  Requests thus leave
the queue only from the front and enter only at the back, so grants
follow strict request-arrival (FIFO) order, never priority or
randomness: a request enqueued strictly before another is granted
strictly before it. -/
theorem claim8_fifo_queue_discipline (cfg : Cfg) (stream : Nat → ℚ)
    (s : SimState) (r : RName) :
    ((getR (step cfg stream s) r).users = (getR s r).users ∧
      (getR (step cfg stream s) r).queue = (getR s r).queue) ∨
    (∃ p, (getR (step cfg stream s) r).users = (getR s r).users.erase p ∧
      (getR (step cfg stream s) r).queue = (getR s r).queue) ∨
    (∃ p, (getR (step cfg stream s) r).users = (getR s r).users ∧
      (getR (step cfg stream s) r).queue = (getR s r).queue ++ [p]) ∨
    ((getR s r).queue = [] ∧ ∃ p,
      (getR (step cfg stream s) r).users = (getR s r).users ++ [p] ∧
      (getR (step cfg stream s) r).queue = []) ∨
    (∃ h t2, (getR s r).queue = h :: t2 ∧
      (getR (step cfg stream s) r).users = (getR s r).users ++ [h] ∧
      ((getR (step cfg stream s) r).queue = t2 ∨
        ∃ p, (getR (step cfg stream s) r).queue = t2 ++ [p])) := by
  unfold step
  by_cases hstop : s.stopped = true
  · rw [if_pos hstop]; exact Or.inl ⟨rfl, rfl⟩
  rw [if_neg hstop]
  cases hev : s.events with
  | nil => exact Or.inl ⟨rfl, rfl⟩
  | cons e rest =>
    rcases e with ⟨t, prio, seq, act⟩
    have hpop : ∀ r'', getR { s with now := t, events := rest } r'' = getR s r'' :=
      fun r'' => getR_popped s t rest r''
    cases act with
    | untilEvt =>
      refine Or.inl ⟨?_, ?_⟩ <;> (simp only [dispatch]; cases r <;> rfl)
    | relDispatch r' =>
      simp only [dispatch]
      rcases relDispatch_resource { s with now := t, events := rest } r' r with
        h | ⟨p, t2, hq, hg, h⟩
      · rw [h, hpop]
        exact Or.inl ⟨rfl, rfl⟩
      · by_cases hr : r = r'
        · subst hr
          rw [if_pos rfl] at h
          refine Or.inr (Or.inr (Or.inr (Or.inr ⟨p, t2, ?_, ?_, Or.inl ?_⟩)))
          · rw [← hpop r]; exact hq
          · rw [h, hpop r]
          · rw [h]
        · rw [if_neg hr] at h
          rw [h, hpop]
          exact Or.inl ⟨rfl, rfl⟩
    | initP pid =>
      match pid with
      | 0 =>
        refine Or.inl ⟨?_, ?_⟩ <;>
          (simp only [dispatch]; rw [getR_runGen, hpop])
      | 1 =>
        refine Or.inl ⟨?_, ?_⟩ <;>
          (simp only [dispatch]; rw [getR_runMonitor, hpop])
      | (n + 2) =>
        simp only [dispatch]
        unfold runPatientInit
        cases hf : ({ s with now := t, events := rest } : SimState).flows (n + 2) with
        | none =>
          refine Or.inl ⟨?_, ?_⟩ <;> (dsimp only; rw [hpop])
        | some f =>
          dsimp only
          simp only [request_resource, getR_updFlow, hpop]
          cases r
          case op => exact Or.inl ⟨by simp, by simp⟩
          case recovery => exact Or.inl ⟨by simp, by simp⟩
          case prep =>
            by_cases hg : (getR s RName.prep).users.length <
                (getR s RName.prep).capacity
            · cases hq : (getR s RName.prep).queue with
              | nil =>
                refine Or.inr (Or.inr (Or.inr (Or.inl
                  ⟨by first | exact hq | rfl, n + 2, by simp [hg, hq], by simp [hg, hq]⟩)))
              | cons hd t2 =>
                refine Or.inr (Or.inr (Or.inr (Or.inr
                  ⟨hd, t2, by first | exact hq | rfl, by simp [hg, hq], Or.inr ⟨n + 2, by simp [hg, hq]⟩⟩)))
            · refine Or.inr (Or.inr (Or.inl ⟨n + 2, by simp [hg], by simp [hg]⟩))
    | resume pid =>
      match pid with
      | 0 =>
        refine Or.inl ⟨?_, ?_⟩ <;>
          (simp only [dispatch]; rw [getR_runGen, hpop])
      | 1 =>
        refine Or.inl ⟨?_, ?_⟩ <;>
          (simp only [dispatch]; rw [getR_runMonitor, hpop])
      | (n + 2) =>
        simp only [dispatch]
        unfold runPatientResume
        cases hf : ({ s with now := t, events := rest } : SimState).flows (n + 2) with
        | none =>
          refine Or.inl ⟨?_, ?_⟩ <;> (dsimp only; rw [hpop])
        | some f =>
          dsimp only
          cases hst : f.stage <;> dsimp only
          case created => refine Or.inl ⟨?_, ?_⟩ <;> rw [hpop]
          case done => refine Or.inl ⟨?_, ?_⟩ <;> rw [hpop]
          case waitPrep =>
            refine Or.inl ⟨?_, ?_⟩ <;> rw [getR_schedule, getR_updFlow, hpop]
          case waitOR =>
            refine Or.inl ⟨?_, ?_⟩ <;> rw [getR_schedule, getR_updFlow, hpop]
          case waitRec =>
            refine Or.inl ⟨?_, ?_⟩ <;> rw [getR_schedule, getR_updFlow, hpop]
          case prepping =>
            simp only [request_resource, release_resource, getR_updFlow, hpop]
            cases r
            case prep =>
              refine Or.inr (Or.inl ⟨n + 2, by simp, by simp⟩)
            case recovery => exact Or.inl ⟨by simp, by simp⟩
            case op =>
              by_cases hg : (getR s RName.op).users.length <
                  (getR s RName.op).capacity
              · cases hq : (getR s RName.op).queue with
                | nil =>
                  refine Or.inr (Or.inr (Or.inr (Or.inl
                    ⟨by first | exact hq | rfl, n + 2, by simp [hg, hq], by simp [hg, hq]⟩)))
                | cons hd t2 =>
                  refine Or.inr (Or.inr (Or.inr (Or.inr
                    ⟨hd, t2, by first | exact hq | rfl, by simp [hg, hq], Or.inr ⟨n + 2, by simp [hg, hq]⟩⟩)))
              · refine Or.inr (Or.inr (Or.inl ⟨n + 2, by simp [hg], by simp [hg]⟩))
          case operating =>
            by_cases hb : cfg.block_or_until_recovery
            · simp only [hb, if_true, request_resource, release_resource,
                getR_updFlow, hpop]
              cases r
              · exact Or.inl ⟨by simp, by simp⟩
              · exact Or.inl ⟨by simp, by simp⟩
              ·
                by_cases hg : (getR s RName.recovery).users.length <
                    (getR s RName.recovery).capacity
                · cases hq : (getR s RName.recovery).queue with
                  | nil =>
                    refine Or.inr (Or.inr (Or.inr (Or.inl
                      ⟨by first | exact hq | rfl, n + 2, by simp [hg, hq], by simp [hg, hq]⟩)))
                  | cons hd t2 =>
                    refine Or.inr (Or.inr (Or.inr (Or.inr
                      ⟨hd, t2, by first | exact hq | rfl, by simp [hg, hq], Or.inr ⟨n + 2, by simp [hg, hq]⟩⟩)))
                · refine Or.inr (Or.inr (Or.inl
                    ⟨n + 2, by simp [hg], by simp [hg]⟩))
            · simp only [hb, Bool.false_eq_true, if_false, request_resource,
                release_resource, getR_updFlow, hpop]
              cases r
              · exact Or.inl ⟨by simp, by simp⟩
              ·
                refine Or.inr (Or.inl ⟨n + 2, by simp, by simp⟩)
              ·
                by_cases hg : (getR s RName.recovery).users.length <
                    (getR s RName.recovery).capacity
                · cases hq : (getR s RName.recovery).queue with
                  | nil =>
                    refine Or.inr (Or.inr (Or.inr (Or.inl
                      ⟨by first | exact hq | rfl, n + 2, by simp [hg, hq], by simp [hg, hq]⟩)))
                  | cons hd t2 =>
                    refine Or.inr (Or.inr (Or.inr (Or.inr
                      ⟨hd, t2, by first | exact hq | rfl, by simp [hg, hq], Or.inr ⟨n + 2, by simp [hg, hq]⟩⟩)))
                · refine Or.inr (Or.inr (Or.inl
                    ⟨n + 2, by simp [hg], by simp [hg]⟩))
          case recovering =>
            by_cases hb : cfg.block_or_until_recovery
            · simp only [hb, if_true, getR_setMetrics, release_resource,
                getR_updFlow, hpop]
              cases r
              · exact Or.inl ⟨by simp, by simp⟩
              ·
                refine Or.inr (Or.inl ⟨n + 2, by simp, by simp⟩)
              ·
                refine Or.inr (Or.inl ⟨n + 2, by simp, by simp⟩)
            · simp only [hb, Bool.false_eq_true, if_false, getR_setMetrics,
                release_resource, getR_updFlow, hpop]
              cases r
              · exact Or.inl ⟨by simp, by simp⟩
              · exact Or.inl ⟨by simp, by simp⟩
              ·
                refine Or.inr (Or.inl ⟨n + 2, by simp, by simp⟩)

/-! ## Capacity invariant -/

theorem util_bounds (l c : Nat) (h : l ≤ c) :
    0 ≤ (l : ℚ) / (c : ℚ) ∧ (l : ℚ) / (c : ℚ) ≤ 1 := by
  rcases Nat.eq_zero_or_pos c with hc | hc
  · subst hc
    have : l = 0 := Nat.le_zero.mp h
    subst this
    norm_num
  · have hc' : (0 : ℚ) < (c : ℚ) := by exact_mod_cast hc
    constructor
    · positivity
    · rw [div_le_one hc']
      exact_mod_cast h

/-- The per-resource half of the capacity invariant. -/
def ResOK (cfg : Cfg) (s : SimState) : Prop :=
  ∀ r, (getR s r).users.length ≤ (getR s r).capacity ∧
    (getR s r).capacity = capOf cfg r

theorem resOK_request (cfg : Cfg) (s : SimState) (r' : RName) (pid : Nat)
    (h : ResOK cfg s) : ResOK cfg (request s r' pid) := by
  intro r
  rcases request_split s r' pid with ⟨hg, hq, he⟩ | ⟨hd, t2, hg, hq, he⟩ | ⟨hg, he⟩
  · rw [he, getR_schedule, getR_setR]
    by_cases hr : r = r'
    · rw [if_pos hr]
      subst hr
      refine ⟨?_, (h r).2⟩
      simpa using hg
    · rw [if_neg hr]
      exact h r
  · rw [he, getR_schedule, getR_setR]
    by_cases hr : r = r'
    · rw [if_pos hr]
      subst hr
      refine ⟨?_, (h r).2⟩
      simpa using hg
    · rw [if_neg hr]
      exact h r
  · rw [he, getR_setR]
    by_cases hr : r = r'
    · rw [if_pos hr]
      subst hr
      exact ⟨(h r).1, (h r).2⟩
    · rw [if_neg hr]
      exact h r

theorem resOK_release (cfg : Cfg) (s : SimState) (r' : RName) (pid : Nat)
    (h : ResOK cfg s) : ResOK cfg (release s r' pid) := by
  intro r
  rw [release_resource]
  by_cases hr : r = r'
  · rw [if_pos hr]
    subst hr
    exact ⟨le_trans (List.length_erase_le _ _) (h r).1, (h r).2⟩
  · rw [if_neg hr]
    exact h r

theorem resOK_relDispatch (cfg : Cfg) (s : SimState) (r' : RName)
    (h : ResOK cfg s) : ResOK cfg (runRelDispatch s r') := by
  intro r
  rcases relDispatch_resource s r' r with heq | ⟨p, t2, hq, hg, heq⟩
  · rw [heq]; exact h r
  · rw [heq]
    by_cases hr : r = r'
    · rw [if_pos hr]
      subst hr
      refine ⟨?_, (h r).2⟩
      simpa using hg
    · rw [if_neg hr]
      exact h r

/-- One step preserves the capacity invariant and keeps every recorded
OR-utilization sample in [0, 1]. -/
theorem step_inv7 (cfg : Cfg) (stream : Nat → ℚ) (s : SimState)
    (h : Inv7 cfg s) : Inv7 cfg (step cfg stream s) := by
  obtain ⟨hres, hutil⟩ := h
  unfold step
  by_cases hstop : s.stopped = true
  · rw [if_pos hstop]; exact ⟨hres, hutil⟩
  rw [if_neg hstop]
  cases hev : s.events with
  | nil => exact ⟨hres, hutil⟩
  | cons e rest =>
    rcases e with ⟨t, prio, seq, act⟩
    have hres' : ResOK cfg { s with now := t, events := rest } := by
      intro r; rw [getR_popped]; exact hres r
    have hutil' : ∀ p ∈ ({ s with now := t, events := rest } : SimState).metrics.or_util,
        0 ≤ p.2 ∧ p.2 ≤ 1 := hutil
    cases act with
    | untilEvt =>
      refine ⟨?_, hutil⟩
      intro r
      cases r
      · exact hres .prep
      · exact hres .op
      · exact hres .recovery
    | relDispatch r' =>
      simp only [dispatch]
      refine ⟨resOK_relDispatch cfg _ r' hres', ?_⟩
      have : (runRelDispatch { s with now := t, events := rest } r').metrics =
          s.metrics := by rw [runRelDispatch_metrics]
      rw [this]
      exact hutil
    | initP pid =>
      match pid with
      | 0 =>
        simp only [dispatch]
        refine ⟨?_, ?_⟩
        · intro r; rw [getR_runGen, getR_popped]; exact hres r
        · rw [runGen_metrics]; exact hutil
      | 1 =>
        simp only [dispatch]
        unfold runMonitor
        refine ⟨?_, ?_⟩
        · intro r
          rw [getR_schedule, getR_setMetrics, getR_popped]
          exact hres r
        · rw [schedule_metrics, setMetrics_metrics]
          intro p hp
          simp only [List.mem_append, List.mem_singleton] at hp
          rcases hp with hp | hp
          · exact hutil p hp
          · subst hp
            exact util_bounds _ _ (hres .op).1
      | (n + 2) =>
        simp only [dispatch]
        unfold runPatientInit
        cases hf : ({ s with now := t, events := rest } : SimState).flows (n + 2) with
        | none => exact ⟨hres', hutil'⟩
        | some f =>
          dsimp only
          refine ⟨?_, ?_⟩
          · refine resOK_request cfg _ .prep (n + 2) ?_
            intro r; rw [getR_updFlow, getR_popped]; exact hres r
          · rw [request_metrics, updFlow_metrics]
            exact hutil
    | resume pid =>
      match pid with
      | 0 =>
        simp only [dispatch]
        refine ⟨?_, ?_⟩
        · intro r; rw [getR_runGen, getR_popped]; exact hres r
        · rw [runGen_metrics]; exact hutil
      | 1 =>
        simp only [dispatch]
        unfold runMonitor
        refine ⟨?_, ?_⟩
        · intro r
          rw [getR_schedule, getR_setMetrics, getR_popped]
          exact hres r
        · rw [schedule_metrics, setMetrics_metrics]
          intro p hp
          simp only [List.mem_append, List.mem_singleton] at hp
          rcases hp with hp | hp
          · exact hutil p hp
          · subst hp
            exact util_bounds _ _ (hres .op).1
      | (n + 2) =>
        simp only [dispatch]
        constructor
        · -- the resource half, by the stage case analysis
          unfold runPatientResume
          cases hf : ({ s with now := t, events := rest } : SimState).flows (n + 2) with
          | none => exact hres'
          | some f =>
            dsimp only
            cases hst : f.stage <;> dsimp only
            case created => exact hres'
            case done => exact hres'
            case waitPrep =>
              intro r; rw [getR_schedule, getR_updFlow, getR_popped]; exact hres r
            case waitOR =>
              intro r; rw [getR_schedule, getR_updFlow, getR_popped]; exact hres r
            case waitRec =>
              intro r; rw [getR_schedule, getR_updFlow, getR_popped]; exact hres r
            case prepping =>
              refine resOK_request cfg _ .op (n + 2) ?_
              refine resOK_release cfg _ .prep (n + 2) ?_
              intro r; rw [getR_updFlow, getR_popped]; exact hres r
            case operating =>
              by_cases hb : cfg.block_or_until_recovery
              · simp only [hb, if_true]
                refine resOK_request cfg _ .recovery (n + 2) ?_
                intro r; rw [getR_updFlow, getR_popped]; exact hres r
              · simp only [hb, Bool.false_eq_true, if_false]
                refine resOK_request cfg _ .recovery (n + 2) ?_
                refine resOK_release cfg _ .op (n + 2) ?_
                intro r; rw [getR_updFlow, getR_popped]; exact hres r
            case recovering =>
              intro r
              rw [getR_setMetrics]
              by_cases hb : cfg.block_or_until_recovery
              · simp only [hb, if_true]
                refine (resOK_release cfg _ .op (n + 2) ?_) r
                refine resOK_release cfg _ .recovery (n + 2) ?_
                intro r0; rw [getR_updFlow, getR_popped]; exact hres r0
              · simp only [hb, Bool.false_eq_true, if_false]
                refine (resOK_release cfg _ .recovery (n + 2) ?_) r
                intro r0; rw [getR_updFlow, getR_popped]; exact hres r0
        · -- the utilization half: patient segments never touch `or_util`
          rcases runPatientResume_metrics cfg { s with now := t, events := rest }
            (n + 2) with hm | ⟨rcd, hm⟩
          · rw [hm]; exact hutil
          · rw [hm]; exact hutil

/-- C7: for every Resource Pool at every point of every run, the held
count stays between 0 and the configured capacity (the capacity is
fixed at pool creation); and in every successful `run_sim` call every
sampled OR-utilization value `count / capacity` lies in [0, 1]. -/
theorem claim7_capacity_invariant (cfg : Cfg) (stream : Nat → ℚ)
    (seedStream : Nat → Nat → ℚ) (ambient : Nat → ℚ) (n fuel : Nat)
    (r : RName) (out : RunOut) :
    ((getR (runState cfg stream n) r).users.length ≤
      (getR (runState cfg stream n) r).capacity ∧
     (getR (runState cfg stream n) r).capacity = capOf cfg r) ∧
    (run_sim seedStream ambient cfg fuel = .ok out →
      ∀ p ∈ out.metrics.or_util, 0 ≤ p.2 ∧ p.2 ≤ 1) := by
  have hinit : Inv7 cfg (initState cfg) := by
    constructor
    · intro r0
      cases r0 <;> exact ⟨Nat.zero_le _, rfl⟩
    · intro p hp
      simp [initState, emptyMetrics, schedule_metrics] at hp
  constructor
  · exact (runSteps_invariant cfg stream (Inv7 cfg)
      (fun s0 h0 => step_inv7 cfg stream s0 h0) n (initState cfg) hinit).1 r
  · intro hok
    unfold run_sim at hok
    cases he : eagerError cfg
    · rw [he] at hok
      injection hok with h2
      rw [← h2]
      exact (runSteps_invariant cfg
        (seedAllStream seedStream ambient cfg.random_seed) (Inv7 cfg)
        (fun s0 h0 => step_inv7 cfg _ s0 h0) fuel (initState cfg) hinit).2
    · rw [he] at hok
      exact absurd hok (by simp)

/-- Witness for C7 at a concrete seeded run whose OR-utilization series
contains the sample (20, 1). -/
theorem claim7_capacity_invariant_witness :
    0 ≤ ((20 : ℚ), (1 : ℚ)).2 ∧ ((20 : ℚ), (1 : ℚ)).2 ≤ 1 :=
  (claim7_capacity_invariant cfgMid streamOnes (fun v k => (v : ℚ) + k)
    (fun _ => 0) 0 40 RName.op
    ⟨⟨1, [], []⟩, ⟨1, [2], []⟩, ⟨1, [2], []⟩,
      ⟨0, [], [(0, 0), (20, 0)], [(0, 0), (20, 0)], [(0, 0), (20, 0)],
        [(0, 0), (20, 1)]⟩⟩).2
    (by with_unfolding_all rfl) ((20 : ℚ), (1 : ℚ)) (by decide)

/-! ## Monitor cadence -/

theorem setR_nextSeq (s : SimState) (r : RName) (x : Resrc) :
    (setR s r x).nextSeq = s.nextSeq := by cases r <;> rfl

theorem setR_now2 (s : SimState) (r : RName) (x : Resrc) :
    (setR s r x).now = s.now := by cases r <;> rfl

theorem nonmon_initP (t : Time) (p seq pid : Nat) (h : 2 ≤ pid) :
    isMonEvB ⟨t, p, seq, .initP pid⟩ = false := by
  simp only [isMonEvB, decide_eq_false_iff_not, not_or]
  refine ⟨fun h1 => ?_, fun h1 => Act.noConfusion h1⟩
  have h2 : pid = 1 := Act.initP.inj h1
  omega

theorem nonmon_resume (t : Time) (p seq pid : Nat) (h : 2 ≤ pid) :
    isMonEvB ⟨t, p, seq, .resume pid⟩ = false := by
  simp only [isMonEvB, decide_eq_false_iff_not, not_or]
  refine ⟨fun h1 => Act.noConfusion h1, fun h1 => ?_⟩
  have h2 : pid = 1 := Act.resume.inj h1
  omega

theorem nonmon_relDispatch (t : Time) (p seq : Nat) (r : RName) :
    isMonEvB ⟨t, p, seq, .relDispatch r⟩ = false := by
  simp [isMonEvB]

/-- The pending-monitor-event half of the cadence invariant, over an
event list. -/
def MonEvOK (cfg : Cfg) (k : Nat) (l : List Ev) : Prop :=
  (∀ e ∈ l, isMonEvB e = true → e.time = (k : ℚ) * cfg.monitor_interval) ∧
  (l.filter isMonEvB).length ≤ 1

theorem monEvOK_insert_nonmon (cfg : Cfg) (k : Nat) (e : Ev) (l : List Ev)
    (h : MonEvOK cfg k l) (hna : isMonEvB e = false) :
    MonEvOK cfg k (insertEv e l) := by
  constructor
  · intro e' he' hm
    rcases mem_insertEv.mp he' with rfl | he'
    · rw [hna] at hm; cases hm
    · exact h.1 e' he' hm
  · rw [filter_insertEv_length, hna]
    simpa using h.2

theorem monEvOK_request (cfg : Cfg) (k : Nat) (s : SimState) (r' : RName)
    (pid : Nat) (hpid : 2 ≤ pid)
    (hq : ∀ x ∈ (getR s r').queue, 2 ≤ x) (h : MonEvOK cfg k s.events) :
    MonEvOK cfg k (request s r' pid).events := by
  rcases request_split s r' pid with ⟨hg, hqe, he⟩ | ⟨hd, t2, hg, hqe, he⟩ | ⟨hg, he⟩
  · rw [he, schedule_events, setR_events]
    exact monEvOK_insert_nonmon cfg k _ _ h (nonmon_resume _ _ _ _ hpid)
  · rw [he, schedule_events, setR_events]
    refine monEvOK_insert_nonmon cfg k _ _ h (nonmon_resume _ _ _ _ ?_)
    exact hq hd (hqe ▸ List.mem_cons_self hd t2)
  · rw [he, setR_events]
    exact h

theorem monEvOK_release (cfg : Cfg) (k : Nat) (s : SimState) (r' : RName)
    (pid : Nat) (h : MonEvOK cfg k s.events) :
    MonEvOK cfg k (release s r' pid).events := by
  unfold release
  rw [schedule_events, setR_events, setR_nextSeq]
  exact monEvOK_insert_nonmon cfg k _ _ h (nonmon_relDispatch _ _ _ _)

theorem monEvOK_relDispatch (cfg : Cfg) (k : Nat) (s : SimState) (r' : RName)
    (hq : ∀ x ∈ (getR s r').queue, 2 ≤ x) (h : MonEvOK cfg k s.events) :
    MonEvOK cfg k (runRelDispatch s r').events := by
  unfold runRelDispatch
  cases hqe : (getR s r').queue with
  | nil => exact h
  | cons hd t2 =>
    dsimp only
    split
    · rw [schedule_events, setR_events, setR_nextSeq]
      refine monEvOK_insert_nonmon cfg k _ _ h (nonmon_resume _ _ _ _ ?_)
      exact hq hd (hqe ▸ List.mem_cons_self hd t2)
    · exact h

/-- Queue membership of a popped-event state. -/
theorem queue_pids_popped (s : SimState) (t : Time) (rest : List Ev)
    (h : ∀ r x, x ∈ (getR s r).queue → 2 ≤ x) :
    ∀ r x, x ∈ (getR ({ s with now := t, events := rest }) r).queue → 2 ≤ x := by
  intro r x hx
  rw [getR_popped] at hx
  exact h r x hx

theorem queue_pids_request (s : SimState) (r' : RName) (pid : Nat)
    (hpid : 2 ≤ pid) (h : ∀ r x, x ∈ (getR s r).queue → 2 ≤ x) :
    ∀ r x, x ∈ (getR (request s r' pid) r).queue → 2 ≤ x := by
  intro r x hx
  rcases request_split s r' pid with ⟨hg, hqe, he⟩ | ⟨hd, t2, hg, hqe, he⟩ | ⟨hg, he⟩
  · rw [he, getR_schedule, getR_setR] at hx
    by_cases hr : r = r'
    · rw [if_pos hr] at hx
      exact h r' x hx
    · rw [if_neg hr] at hx
      exact h r x hx
  · rw [he, getR_schedule, getR_setR] at hx
    by_cases hr : r = r'
    · rw [if_pos hr] at hx
      have hx' : x ∈ t2 ++ [pid] := hx
      rw [List.mem_append, List.mem_singleton] at hx'
      rcases hx' with hx' | rfl
      · exact h r' x (hqe ▸ List.mem_cons_of_mem _ hx')
      · exact hpid
    · rw [if_neg hr] at hx
      exact h r x hx
  · rw [he, getR_setR] at hx
    by_cases hr : r = r'
    · rw [if_pos hr] at hx
      have hx' : x ∈ (getR s r').queue ++ [pid] := hx
      rw [List.mem_append, List.mem_singleton] at hx'
      rcases hx' with hx' | rfl
      · exact h r' x hx'
      · exact hpid
    · rw [if_neg hr] at hx
      exact h r x hx

theorem queue_pids_release (s : SimState) (r' : RName) (pid : Nat)
    (h : ∀ r x, x ∈ (getR s r).queue → 2 ≤ x) :
    ∀ r x, x ∈ (getR (release s r' pid) r).queue → 2 ≤ x := by
  intro r x hx
  rw [release_resource] at hx
  by_cases hr : r = r'
  · rw [if_pos hr] at hx
    exact h r' x hx
  · rw [if_neg hr] at hx
    exact h r x hx

theorem queue_pids_relDispatch (s : SimState) (r' : RName)
    (h : ∀ r x, x ∈ (getR s r).queue → 2 ≤ x) :
    ∀ r x, x ∈ (getR (runRelDispatch s r') r).queue → 2 ≤ x := by
  intro r x hx
  rcases relDispatch_resource s r' r with heq | ⟨p, t2, hq, hg, heq⟩
  · rw [heq] at hx
    exact h r x hx
  · rw [heq] at hx
    by_cases hr : r = r'
    · rw [if_pos hr] at hx
      refine h r' x ?_
      rw [hq]
      exact List.mem_cons_of_mem p hx
    · rw [if_neg hr] at hx
      exact h r x hx

theorem queue_pids_updFlow (s : SimState) (pid : Nat) (f : FlowState)
    (h : ∀ r x, x ∈ (getR s r).queue → 2 ≤ x) :
    ∀ r x, x ∈ (getR (updFlow s pid f) r).queue → 2 ≤ x := by
  intro r x hx
  rw [getR_updFlow] at hx
  exact h r x hx

theorem queue_pids_setMetrics (s : SimState) (m : Metrics)
    (h : ∀ r x, x ∈ (getR s r).queue → 2 ≤ x) :
    ∀ r x, x ∈ (getR (setMetrics s m) r).queue → 2 ≤ x := by
  intro r x hx
  rw [getR_setMetrics] at hx
  exact h r x hx

theorem queue_pids_schedule (s : SimState) (t : Time) (p : Nat) (a : Act)
    (h : ∀ r x, x ∈ (getR s r).queue → 2 ≤ x) :
    ∀ r x, x ∈ (getR (schedule s t p a) r).queue → 2 ≤ x := by
  intro r x hx
  rw [getR_schedule] at hx
  exact h r x hx

theorem nonmon_resume_zero (t : Time) (p seq : Nat) :
    isMonEvB ⟨t, p, seq, .resume 0⟩ = false := by
  simp [isMonEvB]

theorem nonmon_initP_zero (t : Time) (p seq : Nat) :
    isMonEvB ⟨t, p, seq, .initP 0⟩ = false := by
  simp [isMonEvB]

theorem runMonitor_or_util (cfg : Cfg) (s : SimState) :
    (runMonitor cfg s).metrics.or_util =
      s.metrics.or_util ++
        [(s.now, (s.op.users.length : ℚ) / (s.op.capacity : ℚ))] := rfl

theorem runMonitor_prep_q (cfg : Cfg) (s : SimState) :
    (runMonitor cfg s).metrics.prep_q =
      s.metrics.prep_q ++ [(s.now, s.prep.queue.length)] := rfl

theorem runMonitor_or_q (cfg : Cfg) (s : SimState) :
    (runMonitor cfg s).metrics.or_q =
      s.metrics.or_q ++ [(s.now, s.op.queue.length)] := rfl

theorem runMonitor_rec_q (cfg : Cfg) (s : SimState) :
    (runMonitor cfg s).metrics.rec_q =
      s.metrics.rec_q ++ [(s.now, s.recovery.queue.length)] := rfl

theorem runMonitor_events (cfg : Cfg) (s : SimState) :
    (runMonitor cfg s).events =
      insertEv ⟨s.now + cfg.monitor_interval, 1, s.nextSeq, .resume 1⟩
        s.events := rfl

/-- One scheduler step preserves the monitor-cadence invariant. -/
theorem step_monInv (cfg : Cfg) (stream : Nat → ℚ) (s : SimState)
    (h : MonInv cfg s) : MonInv cfg (step cfg stream s) := by
  obtain ⟨h1, h2, h3, h4, hpend, huniq, hq⟩ := h
  unfold step
  by_cases hstop : s.stopped = true
  · rw [if_pos hstop]; exact ⟨h1, h2, h3, h4, hpend, huniq, hq⟩
  rw [if_neg hstop]
  cases hev : s.events with
  | nil => exact ⟨h1, h2, h3, h4, hpend, huniq, hq⟩
  | cons e rest =>
    rcases e with ⟨t, prio, seq, act⟩
    have hpend' : ∀ e' ∈ rest, isMonEvB e' = true →
        e'.time = (s.metrics.or_util.length : ℚ) * cfg.monitor_interval :=
      fun e' he' => hpend e' (hev ▸ List.mem_cons_of_mem _ he')
    have huniq' : (rest.filter isMonEvB).length ≤ 1 := by
      have hh := huniq
      rw [hev] at hh
      refine le_trans ?_ hh
      rw [List.filter_cons]
      split <;> simp
    have hms : MonEvOK cfg s.metrics.or_util.length rest := ⟨hpend', huniq'⟩
    have hq' : ∀ r x, x ∈ (getR ({ s with now := t, events := rest }) r).queue →
        2 ≤ x := queue_pids_popped s t rest hq
    cases act with
    | untilEvt =>
      exact ⟨h1, h2, h3, h4, fun e' he' => hpend' e' he', huniq',
        fun r x hx => hq r x hx⟩
    | relDispatch r' =>
      simp only [dispatch]
      have hev2 := monEvOK_relDispatch cfg s.metrics.or_util.length
        { s with now := t, events := rest } r' (fun x hx => hq' r' x hx) hms
      refine ⟨?_, ?_, ?_, ?_, ?_, ?_, ?_⟩
      · rw [runRelDispatch_metrics]; exact h1
      · rw [runRelDispatch_metrics]; exact h2
      · rw [runRelDispatch_metrics]; exact h3
      · rw [runRelDispatch_metrics]; exact h4
      · rw [runRelDispatch_metrics]; exact hev2.1
      · exact hev2.2
      · exact queue_pids_relDispatch _ r' hq'
    | initP pid =>
      match pid with
      | 0 =>
        simp only [dispatch]
        have e1 := monEvOK_insert_nonmon cfg s.metrics.or_util.length
          ⟨t, 0, s.nextSeq, .initP (s.genCount + 1 + 1)⟩ rest hms
          (nonmon_initP _ _ _ _ (by omega))
        have e2 := monEvOK_insert_nonmon cfg s.metrics.or_util.length
          ⟨t + sampleExpo cfg.interarrival_mean stream (s.rngIdx + 3), 1,
            s.nextSeq + 1, .resume 0⟩ _ e1 (nonmon_resume_zero _ _ _)
        exact ⟨h1, h2, h3, h4, e2.1, e2.2,
          fun r x hx => hq r x hx⟩
      | 1 =>
        simp only [dispatch]
        have htm : t = (s.metrics.or_util.length : ℚ) * cfg.monitor_interval :=
          hpend ⟨t, prio, seq, .initP 1⟩ (hev ▸ List.mem_cons_self _ _) (by simp [isMonEvB])
        have hrest_nomon : ∀ e' ∈ rest, isMonEvB e' = false := by
          intro e' he'
          by_contra hcon
          rw [Bool.not_eq_false] at hcon
          have hmem : e' ∈ rest.filter isMonEvB := List.mem_filter.mpr ⟨he', hcon⟩
          have hpos : 0 < (rest.filter isMonEvB).length := List.length_pos_of_mem hmem
          have hh := huniq
          rw [hev, List.filter_cons_of_pos (by simp [isMonEvB]), List.length_cons] at hh
          omega
        refine ⟨?_, ?_, ?_, ?_, ?_, ?_, ?_⟩
        · rw [runMonitor_or_util]
          simp only [List.map_append, List.length_append, List.map_cons,
            List.map_nil, List.length_cons, List.length_nil]
          rw [h1, htm]
          rw [List.range_succ, List.map_append]
          simp
        · rw [runMonitor_prep_q, runMonitor_or_util]
          simp only [List.map_append, List.map_cons, List.map_nil]
          rw [h2]
        · rw [runMonitor_or_q, runMonitor_or_util]
          simp only [List.map_append, List.map_cons, List.map_nil]
          rw [h3]
        · rw [runMonitor_rec_q, runMonitor_or_util]
          simp only [List.map_append, List.map_cons, List.map_nil]
          rw [h4]
        · rw [runMonitor_events, runMonitor_or_util]
          intro e' he' hm
          rcases mem_insertEv.mp he' with rfl | he'
          · show t + cfg.monitor_interval = _
            rw [htm]
            simp only [List.length_append, List.length_cons, List.length_nil]
            push_cast
            ring
          · exact absurd hm (by rw [hrest_nomon e' he']; simp)
        · rw [runMonitor_events, filter_insertEv_length]
          rw [if_pos (by simp [isMonEvB])]
          have : (rest.filter isMonEvB).length = 0 := by
            rw [List.length_eq_zero]
            rw [List.filter_eq_nil]
            intro e' he'
            rw [hrest_nomon e' he']
            simp
          simp [this]
        · exact queue_pids_schedule _ _ _ _
            (queue_pids_setMetrics _ _ hq')
      | (n + 2) =>
        simp only [dispatch]
        unfold runPatientInit
        cases hf : ({ s with now := t, events := rest } : SimState).flows (n + 2) with
        | none =>
          exact ⟨h1, h2, h3, h4, fun e' he' => hpend' e' he', huniq',
            fun r x hx => hq' r x hx⟩
        | some f =>
          dsimp only
          have hev2 := monEvOK_request cfg s.metrics.or_util.length
            (updFlow { s with now := t, events := rest } (n + 2)
              { f with stage := .waitPrep, arrival_to_prep_q := t })
            .prep (n + 2) (by omega)
            (fun x hx => hq' RName.prep x hx) hms
          refine ⟨?_, ?_, ?_, ?_, ?_, ?_, ?_⟩
          · rw [request_metrics, updFlow_metrics]; exact h1
          · rw [request_metrics, updFlow_metrics]; exact h2
          · rw [request_metrics, updFlow_metrics]; exact h3
          · rw [request_metrics, updFlow_metrics]; exact h4
          · rw [request_metrics, updFlow_metrics]; exact hev2.1
          · exact hev2.2
          · exact queue_pids_request _ .prep (n + 2) (by omega)
              (queue_pids_updFlow _ _ _ hq')
    | resume pid =>
      match pid with
      | 0 =>
        simp only [dispatch]
        have e1 := monEvOK_insert_nonmon cfg s.metrics.or_util.length
          ⟨t, 0, s.nextSeq, .initP (s.genCount + 1 + 1)⟩ rest hms
          (nonmon_initP _ _ _ _ (by omega))
        have e2 := monEvOK_insert_nonmon cfg s.metrics.or_util.length
          ⟨t + sampleExpo cfg.interarrival_mean stream (s.rngIdx + 3), 1,
            s.nextSeq + 1, .resume 0⟩ _ e1 (nonmon_resume_zero _ _ _)
        exact ⟨h1, h2, h3, h4, e2.1, e2.2,
          fun r x hx => hq r x hx⟩
      | 1 =>
        simp only [dispatch]
        have htm : t = (s.metrics.or_util.length : ℚ) * cfg.monitor_interval :=
          hpend ⟨t, prio, seq, .resume 1⟩ (hev ▸ List.mem_cons_self _ _) (by simp [isMonEvB])
        have hrest_nomon : ∀ e' ∈ rest, isMonEvB e' = false := by
          intro e' he'
          by_contra hcon
          rw [Bool.not_eq_false] at hcon
          have hmem : e' ∈ rest.filter isMonEvB := List.mem_filter.mpr ⟨he', hcon⟩
          have hpos : 0 < (rest.filter isMonEvB).length := List.length_pos_of_mem hmem
          have hh := huniq
          rw [hev, List.filter_cons_of_pos (by simp [isMonEvB]), List.length_cons] at hh
          omega
        refine ⟨?_, ?_, ?_, ?_, ?_, ?_, ?_⟩
        · rw [runMonitor_or_util]
          simp only [List.map_append, List.length_append, List.map_cons,
            List.map_nil, List.length_cons, List.length_nil]
          rw [h1, htm]
          rw [List.range_succ, List.map_append]
          simp
        · rw [runMonitor_prep_q, runMonitor_or_util]
          simp only [List.map_append, List.map_cons, List.map_nil]
          rw [h2]
        · rw [runMonitor_or_q, runMonitor_or_util]
          simp only [List.map_append, List.map_cons, List.map_nil]
          rw [h3]
        · rw [runMonitor_rec_q, runMonitor_or_util]
          simp only [List.map_append, List.map_cons, List.map_nil]
          rw [h4]
        · rw [runMonitor_events, runMonitor_or_util]
          intro e' he' hm
          rcases mem_insertEv.mp he' with rfl | he'
          · show t + cfg.monitor_interval = _
            rw [htm]
            simp only [List.length_append, List.length_cons, List.length_nil]
            push_cast
            ring
          · exact absurd hm (by rw [hrest_nomon e' he']; simp)
        · rw [runMonitor_events, filter_insertEv_length]
          rw [if_pos (by simp [isMonEvB])]
          have : (rest.filter isMonEvB).length = 0 := by
            rw [List.length_eq_zero]
            rw [List.filter_eq_nil]
            intro e' he'
            rw [hrest_nomon e' he']
            simp
          simp [this]
        · exact queue_pids_schedule _ _ _ _
            (queue_pids_setMetrics _ _ hq')
      | (n + 2) =>
        simp only [dispatch]
        unfold runPatientResume
        cases hf : ({ s with now := t, events := rest } : SimState).flows (n + 2) with
        | none =>
          exact ⟨h1, h2, h3, h4, fun e' he' => hpend' e' he', huniq',
            fun r x hx => hq' r x hx⟩
        | some f =>
          dsimp only
          have hserv : ∀ (m4 : Metrics), m4 = s.metrics →
              m4.prep_q.map Prod.fst = m4.or_util.map Prod.fst := by
            intro m4 hm4; rw [hm4]; exact h2
          cases hst : f.stage <;> dsimp only
          case created =>
            exact ⟨h1, h2, h3, h4, fun e' he' => hpend' e' he', huniq',
              fun r x hx => hq' r x hx⟩
          case done =>
            exact ⟨h1, h2, h3, h4, fun e' he' => hpend' e' he', huniq',
              fun r x hx => hq' r x hx⟩
          case waitPrep =>
            have hev2 := monEvOK_insert_nonmon cfg s.metrics.or_util.length
              ⟨t + f.patient.prep_time, 1, s.nextSeq, .resume (n + 2)⟩ rest hms
              (nonmon_resume _ _ _ _ (by omega))
            exact ⟨h1, h2, h3, h4, hev2.1, hev2.2,
              queue_pids_schedule _ _ _ _ (queue_pids_updFlow _ _ _ hq')⟩
          case waitOR =>
            have hev2 := monEvOK_insert_nonmon cfg s.metrics.or_util.length
              ⟨t + f.patient.op_time, 1, s.nextSeq, .resume (n + 2)⟩ rest hms
              (nonmon_resume _ _ _ _ (by omega))
            exact ⟨h1, h2, h3, h4, hev2.1, hev2.2,
              queue_pids_schedule _ _ _ _ (queue_pids_updFlow _ _ _ hq')⟩
          case waitRec =>
            have hev2 := monEvOK_insert_nonmon cfg s.metrics.or_util.length
              ⟨t + f.patient.rec_time, 1, s.nextSeq, .resume (n + 2)⟩ rest hms
              (nonmon_resume _ _ _ _ (by omega))
            exact ⟨h1, h2, h3, h4, hev2.1, hev2.2,
              queue_pids_schedule _ _ _ _ (queue_pids_updFlow _ _ _ hq')⟩
          case prepping =>
            have hev2 := monEvOK_request cfg s.metrics.or_util.length
              (release (updFlow { s with now := t, events := rest } (n + 2)
                  { f with stage := .waitOR, end_prep := t, arrival_to_or_q := t })
                .prep (n + 2))
              .op (n + 2) (by omega)
              (fun x hx => hq' RName.op x hx)
              (monEvOK_release cfg s.metrics.or_util.length
                (updFlow { s with now := t, events := rest } (n + 2)
                  { f with stage := .waitOR, end_prep := t, arrival_to_or_q := t })
                .prep (n + 2) hms)
            refine ⟨?_, ?_, ?_, ?_, ?_, ?_, ?_⟩
            · rw [request_metrics, release_metrics, updFlow_metrics]; exact h1
            · rw [request_metrics, release_metrics, updFlow_metrics]; exact h2
            · rw [request_metrics, release_metrics, updFlow_metrics]; exact h3
            · rw [request_metrics, release_metrics, updFlow_metrics]; exact h4
            · rw [request_metrics, release_metrics, updFlow_metrics]; exact hev2.1
            · exact hev2.2
            · exact queue_pids_request _ .op (n + 2) (by omega)
                (queue_pids_release _ .prep (n + 2)
                  (queue_pids_updFlow _ _ _ hq'))
          case operating =>
            by_cases hb : cfg.block_or_until_recovery
            · simp only [hb, if_true]
              have hev2 := monEvOK_request cfg s.metrics.or_util.length
                (updFlow { s with now := t, events := rest } (n + 2)
                  { f with stage := .waitRec, end_op := t, arrival_to_rec_q := t })
                .recovery (n + 2) (by omega)
                (fun x hx => hq' RName.recovery x hx) hms
              refine ⟨?_, ?_, ?_, ?_, ?_, ?_, ?_⟩
              · rw [request_metrics, updFlow_metrics]; exact h1
              · rw [request_metrics, updFlow_metrics]; exact h2
              · rw [request_metrics, updFlow_metrics]; exact h3
              · rw [request_metrics, updFlow_metrics]; exact h4
              · rw [request_metrics, updFlow_metrics]; exact hev2.1
              · exact hev2.2
              · exact queue_pids_request _ .recovery (n + 2) (by omega)
                  (queue_pids_updFlow _ _ _ hq')
            · simp only [hb, Bool.false_eq_true, if_false]
              have hev2 := monEvOK_request cfg s.metrics.or_util.length
                (release (updFlow { s with now := t, events := rest } (n + 2)
                    { f with stage := .waitRec, end_op := t, arrival_to_rec_q := t })
                  .op (n + 2))
                .recovery (n + 2) (by omega)
                (fun x hx => hq' RName.recovery x hx)
                (monEvOK_release cfg s.metrics.or_util.length
                  (updFlow { s with now := t, events := rest } (n + 2)
                    { f with stage := .waitRec, end_op := t, arrival_to_rec_q := t })
                  .op (n + 2) hms)
              refine ⟨?_, ?_, ?_, ?_, ?_, ?_, ?_⟩
              · rw [request_metrics, release_metrics, updFlow_metrics]; exact h1
              · rw [request_metrics, release_metrics, updFlow_metrics]; exact h2
              · rw [request_metrics, release_metrics, updFlow_metrics]; exact h3
              · rw [request_metrics, release_metrics, updFlow_metrics]; exact h4
              · rw [request_metrics, release_metrics, updFlow_metrics]; exact hev2.1
              · exact hev2.2
              · exact queue_pids_request _ .recovery (n + 2) (by omega)
                  (queue_pids_release _ .op (n + 2)
                    (queue_pids_updFlow _ _ _ hq'))
          case recovering =>
            by_cases hb : cfg.block_or_until_recovery
            · simp only [hb, if_true]
              have hev2 := monEvOK_release cfg s.metrics.or_util.length _
                .op (n + 2)
                (monEvOK_release cfg s.metrics.or_util.length
                  (updFlow { s with now := t, events := rest } (n + 2)
                    { f with stage := .done, end_rec := t })
                  .recovery (n + 2) hms)
              refine ⟨?_, ?_, ?_, ?_, ?_, ?_, ?_⟩
              · rw [setMetrics_metrics]
                show (_ : Metrics).or_util.map Prod.fst = _
                rw [release_metrics, release_metrics, updFlow_metrics]
                exact h1
              · rw [setMetrics_metrics]
                show (_ : Metrics).prep_q.map Prod.fst = _
                rw [release_metrics, release_metrics, updFlow_metrics]
                exact h2
              · rw [setMetrics_metrics]
                rw [release_metrics, release_metrics, updFlow_metrics]
                exact h3
              · rw [setMetrics_metrics]
                rw [release_metrics, release_metrics, updFlow_metrics]
                exact h4
              · rw [setMetrics_events, setMetrics_metrics]
                rw [release_metrics, release_metrics, updFlow_metrics]
                exact hev2.1
              · rw [setMetrics_events]
                exact hev2.2
              · exact queue_pids_setMetrics _ _
                  (queue_pids_release _ .op (n + 2)
                    (queue_pids_release _ .recovery (n + 2)
                      (queue_pids_updFlow _ _ _ hq')))
            · simp only [hb, Bool.false_eq_true, if_false]
              have hev2 := monEvOK_release cfg s.metrics.or_util.length
                (updFlow { s with now := t, events := rest } (n + 2)
                  { f with stage := .done, end_rec := t })
                .recovery (n + 2) hms
              refine ⟨?_, ?_, ?_, ?_, ?_, ?_, ?_⟩
              · rw [setMetrics_metrics]
                rw [release_metrics, updFlow_metrics]
                exact h1
              · rw [setMetrics_metrics]
                rw [release_metrics, updFlow_metrics]
                exact h2
              · rw [setMetrics_metrics]
                rw [release_metrics, updFlow_metrics]
                exact h3
              · rw [setMetrics_metrics]
                rw [release_metrics, updFlow_metrics]
                exact h4
              · rw [setMetrics_events, setMetrics_metrics]
                rw [release_metrics, updFlow_metrics]
                exact hev2.1
              · rw [setMetrics_events]
                exact hev2.2
              · exact queue_pids_setMetrics _ _
                  (queue_pids_release _ .recovery (n + 2)
                    (queue_pids_updFlow _ _ _ hq'))

/-- The initial state satisfies the cadence invariant: no snapshots
yet, and the single pending monitor event (its `Initialize`) is due at
time `0 = 0 * monitor_interval`. -/
theorem monInv_init (cfg : Cfg) : MonInv cfg (initState cfg) := by
  have hev1 : (initState cfg).events =
      insertEv ⟨cfg.sim_duration, 0, 2, .untilEvt⟩
        (insertEv ⟨0, 0, 1, .initP 1⟩ (insertEv ⟨0, 0, 0, .initP 0⟩ [])) := rfl
  refine ⟨rfl, rfl, rfl, rfl, ?_, ?_, ?_⟩
  · intro e he hm
    rw [hev1] at he
    rcases mem_insertEv.mp he with rfl | he
    · exact absurd hm (by simp [isMonEvB])
    rcases mem_insertEv.mp he with rfl | he
    · show (0 : ℚ) = _
      have hzero : (initState cfg).metrics.or_util.length = 0 := rfl
      rw [hzero]
      simp
    rcases mem_insertEv.mp he with rfl | he
    · exact absurd hm (by simp [isMonEvB])
    · cases he
  · rw [hev1, filter_insertEv_length, filter_insertEv_length,
      filter_insertEv_length]
    simp [isMonEvB]
  · intro r x hx
    cases r <;> exact absurd hx (List.not_mem_nil x)

/-- C4 (amended): for every run, the recorded snapshot timestamps of
all four monitor series are the arithmetic sequence `0, m, 2m, ...`
with spacing `monitor_interval` — starting at time 0 (the monitor
samples immediately when it starts), independent of patient activity
and of the draw stream. -/
theorem claim4_amended_snapshot_cadence (cfg : Cfg) (stream : Nat → ℚ)
    (fuel : Nat) :
    (runState cfg stream fuel).metrics.or_util.map Prod.fst =
      (List.range (runState cfg stream fuel).metrics.or_util.length).map
        (fun (i : ℕ) => (i : ℚ) * cfg.monitor_interval) ∧
    (runState cfg stream fuel).metrics.prep_q.map Prod.fst =
      (runState cfg stream fuel).metrics.or_util.map Prod.fst ∧
    (runState cfg stream fuel).metrics.or_q.map Prod.fst =
      (runState cfg stream fuel).metrics.or_util.map Prod.fst ∧
    (runState cfg stream fuel).metrics.rec_q.map Prod.fst =
      (runState cfg stream fuel).metrics.or_util.map Prod.fst := by
  have h := runSteps_invariant cfg stream (MonInv cfg)
    (fun s0 h0 => step_monInv cfg stream s0 h0) fuel (initState cfg)
    (monInv_init cfg)
  exact ⟨h.1, h.2.1, h.2.2.1, h.2.2.2.1⟩

/-! ## Timing-decomposition invariant: utilities -/

theorem filter_tail_le (q : Ev → Bool) (e : Ev) (rest : List Ev) :
    (rest.filter q).length ≤ ((e :: rest).filter q).length := by
  rw [List.filter_cons]
  split
  · simp [Nat.le_succ]
  · exact le_refl _

theorem head_true_rest_zero (q : Ev → Bool) (e : Ev) (rest : List Ev)
    (hq : q e = true) (h : ((e :: rest).filter q).length ≤ 1) :
    (rest.filter q).length = 0 := by
  rw [List.filter_cons_of_pos hq, List.length_cons] at h
  omega

theorem zero_of_le_zero (q : Ev → Bool) (e : Ev) (rest : List Ev)
    (h : ((e :: rest).filter q).length = 0) :
    (rest.filter q).length = 0 :=
  Nat.le_zero.mp (h ▸ filter_tail_le q e rest)

theorem forall_false_of_filter_zero (q : Ev → Bool) (l : List Ev)
    (h : (l.filter q).length = 0) : ∀ e ∈ l, q e = false := by
  intro e he
  by_contra hcon
  rw [Bool.not_eq_false] at hcon
  have : e ∈ l.filter q := List.mem_filter.mpr ⟨he, hcon⟩
  have := List.length_pos_of_mem this
  omega

theorem filter_zero_of_forall_false (q : Ev → Bool) (l : List Ev)
    (h : ∀ e ∈ l, q e = false) : (l.filter q).length = 0 := by
  rw [List.length_eq_zero, List.filter_eq_nil_iff]
  intro e he
  rw [h e he]
  simp

theorem refsPidB_initP_self (pid : Nat) (t : Time) (p q : Nat) :
    refsPidB pid ⟨t, p, q, .initP pid⟩ = true := by
  simp [refsPidB]

theorem refsPidB_resume_self (pid : Nat) (t : Time) (p q : Nat) :
    refsPidB pid ⟨t, p, q, .resume pid⟩ = true := by
  simp [refsPidB]

theorem refsPidB_initP_ne (pid pid' : Nat) (t : Time) (p q : Nat)
    (h : pid' ≠ pid) : refsPidB pid ⟨t, p, q, .initP pid'⟩ = false := by
  simp only [refsPidB, decide_eq_false_iff_not, not_or]
  exact ⟨fun h1 => h (Act.initP.inj h1), fun h1 => Act.noConfusion h1⟩

theorem refsPidB_resume_ne (pid pid' : Nat) (t : Time) (p q : Nat)
    (h : pid' ≠ pid) : refsPidB pid ⟨t, p, q, .resume pid'⟩ = false := by
  simp only [refsPidB, decide_eq_false_iff_not, not_or]
  exact ⟨fun h1 => Act.noConfusion h1, fun h1 => h (Act.resume.inj h1)⟩

theorem refsPidB_relDispatch (pid : Nat) (t : Time) (p q : Nat) (r : RName) :
    refsPidB pid ⟨t, p, q, .relDispatch r⟩ = false := by
  simp [refsPidB]

theorem refsPidB_untilEvt (pid : Nat) (t : Time) (p q : Nat) :
    refsPidB pid ⟨t, p, q, .untilEvt⟩ = false := by
  simp [refsPidB]

/-- An event whose `refsPidB pid` is false keeps its `evOK` status when
the process table changes only at `pid`. -/
theorem evOK_update_not_ref (fl : Nat → Option FlowState) (pid : Nat)
    (f : FlowState) (e : Ev) (h : evOK fl e)
    (href : refsPidB pid e = false) :
    evOK (fun x => if x = pid then some f else fl x) e := by
  constructor
  · intro pid' hp' hact
    have hne : pid' ≠ pid := by
      rintro rfl
      rw [refsPidB, decide_eq_false_iff_not] at href
      exact href (Or.inl hact)
    obtain ⟨g, hg, h2, h3⟩ := h.1 pid' hp' hact
    exact ⟨g, by simp [hne, hg], h2, h3⟩
  · intro pid' hp' hact
    have hne : pid' ≠ pid := by
      rintro rfl
      rw [refsPidB, decide_eq_false_iff_not] at href
      exact href (Or.inr hact)
    obtain ⟨g, hg, h2, h3, h4, h5, h6⟩ := h.2 pid' hp' hact
    exact ⟨g, by simp [hne, hg], h2, h3, h4, h5, h6⟩

/-- The record-decomposition component survives a process-table update
that keeps the patient data. -/
theorem recs_update (fl : Nat → Option FlowState) (pid : Nat)
    (f : FlowState) (pts : List PatientRecord)
    (h : ∀ rcd ∈ pts, ∃ pid' g, fl pid' = some g ∧
      g.patient.id = rcd.id ∧ recOK rcd g.patient)
    (hpat : ∀ g, fl pid = some g → g.patient = f.patient) :
    ∀ rcd ∈ pts, ∃ pid' g,
      (fun x => if x = pid then some f else fl x) pid' = some g ∧
      g.patient.id = rcd.id ∧ recOK rcd g.patient := by
  intro rcd hr
  obtain ⟨pid', g, hg, hid, hrec⟩ := h rcd hr
  by_cases hpe : pid' = pid
  · subst hpe
    refine ⟨pid', f, by simp, ?_, ?_⟩
    · rw [← hpat g hg]; exact hid
    · rw [← hpat g hg]; exact hrec
  · exact ⟨pid', g, by simp [hpe, hg], hid, hrec⟩

theorem evOK_resume_low (fl : Nat → Option FlowState) (t : Time) (p q pid : Nat)
    (h : pid < 2) : evOK fl ⟨t, p, q, .resume pid⟩ := by
  constructor
  · intro pid' hp' hact
    exact Act.noConfusion hact
  · intro pid' hp' hact
    have h2 := Act.resume.inj hact
    omega

theorem evOK_initP_low (fl : Nat → Option FlowState) (t : Time) (p q pid : Nat)
    (h : pid < 2) : evOK fl ⟨t, p, q, .initP pid⟩ := by
  constructor
  · intro pid' hp' hact
    have h2 := Act.initP.inj hact
    omega
  · intro pid' hp' hact
    exact Act.noConfusion hact

theorem evOK_relDispatch_any (fl : Nat → Option FlowState) (t : Time)
    (p q : Nat) (r : RName) : evOK fl ⟨t, p, q, .relDispatch r⟩ := by
  constructor
  · intro pid' hp' hact
    exact Act.noConfusion hact
  · intro pid' hp' hact
    exact Act.noConfusion hact

/-- Dispatching a generator iteration preserves the timing invariant:
the spawned patient is fresh, its `Initialize` event is due now (the
patient's creation time), and the generator's own timer references no
patient. -/
theorem inv10_runGen (cfg : Cfg) (stream : Nat → ℚ) (s : SimState) (t : Time)
    (e0 : Ev) (rest : List Ev) (hinv : Inv10 s) (hev : s.events = e0 :: rest) :
    Inv10 (runGen cfg stream { s with now := t, events := rest }) := by
  obtain ⟨hrecs, hstage, hevok, huniq, hqs, hbound⟩ := hinv
  have hfl : (runGen cfg stream { s with now := t, events := rest }).flows =
      fun x => if x = s.genCount + 1 + 1 then
        some ⟨⟨s.genCount + 1, t, sampleExpo cfg.prep_mean stream s.rngIdx,
          sampleExpo cfg.op_mean stream (s.rngIdx + 1),
          sampleExpo cfg.recovery_mean stream (s.rngIdx + 2)⟩,
          .created, 0, 0, 0, 0, 0, 0, 0, 0, 0⟩
      else s.flows x := rfl
  have hflx : ∀ x, (runGen cfg stream { s with now := t, events := rest }).flows x =
      (if x = s.genCount + 1 + 1 then
        some ⟨⟨s.genCount + 1, t, sampleExpo cfg.prep_mean stream s.rngIdx,
          sampleExpo cfg.op_mean stream (s.rngIdx + 1),
          sampleExpo cfg.recovery_mean stream (s.rngIdx + 2)⟩,
          .created, 0, 0, 0, 0, 0, 0, 0, 0, 0⟩
      else s.flows x) := fun x => rfl
  have hevs : (runGen cfg stream { s with now := t, events := rest }).events =
      insertEv ⟨t + sampleExpo cfg.interarrival_mean stream (s.rngIdx + 3),
          1, s.nextSeq + 1, .resume 0⟩
        (insertEv ⟨t, 0, s.nextSeq, .initP (s.genCount + 1 + 1)⟩ rest) := rfl
  have hmet : (runGen cfg stream { s with now := t, events := rest }).metrics =
      s.metrics := rfl
  have hgen : (runGen cfg stream { s with now := t, events := rest }).genCount =
      s.genCount + 1 := rfl
  have hfresh : s.flows (s.genCount + 1 + 1) = none := by
    cases hcc : s.flows (s.genCount + 1 + 1) with
    | none => rfl
    | some g =>
      have := (hbound _ g hcc).2
      omega
  have hnoref : ∀ e ∈ rest, refsPidB (s.genCount + 1 + 1) e = false := by
    intro e he
    by_contra hcon
    rw [Bool.not_eq_false, refsPidB, decide_eq_true_eq] at hcon
    have hmem : e ∈ s.events := hev ▸ List.mem_cons_of_mem _ he
    rcases hcon with hact | hact
    · obtain ⟨g, hg, -, -⟩ := (hevok e hmem).1 _ (by omega) hact
      rw [hfresh] at hg; cases hg
    · obtain ⟨g, hg, -, -, -, -, -⟩ := (hevok e hmem).2 _ (by omega) hact
      rw [hfresh] at hg; cases hg
  refine ⟨?_, ?_, ?_, ?_, ?_, ?_⟩
  · -- records
    rw [hmet, hfl]
    refine recs_update _ _ _ _ hrecs ?_
    intro g hg
    rw [hfresh] at hg
    cases hg
  · -- stage relations
    intro pid f hf
    rw [hflx pid] at hf
    by_cases hp : pid = s.genCount + 1 + 1
    · rw [if_pos hp] at hf
      injection hf with hf
      rw [← hf]
      trivial
    · rw [if_neg hp] at hf
      exact hstage pid f hf
  · -- events
    intro e he
    rw [hevs] at he
    rw [hfl]
    rcases mem_insertEv.mp he with rfl | he
    · exact evOK_resume_low _ _ _ _ _ (by omega)
    rcases mem_insertEv.mp he with rfl | he
    · constructor
      · intro pid' hp' hact
        have hpe := Act.initP.inj hact
        subst hpe
        refine ⟨⟨⟨s.genCount + 1, t, sampleExpo cfg.prep_mean stream s.rngIdx,
          sampleExpo cfg.op_mean stream (s.rngIdx + 1),
          sampleExpo cfg.recovery_mean stream (s.rngIdx + 2)⟩,
          .created, 0, 0, 0, 0, 0, 0, 0, 0, 0⟩, ?_, rfl, rfl⟩
        simp
      · intro pid' hp' hact
        exact Act.noConfusion hact
    · exact evOK_update_not_ref _ _ _ _
        (hevok e (hev ▸ List.mem_cons_of_mem _ he)) (hnoref e he)
  · -- at most one pending event per patient
    intro pid hp
    rw [hevs, filter_insertEv_length, filter_insertEv_length,
      refsPidB_resume_ne pid 0 _ _ _ (by omega)]
    by_cases hpe : s.genCount + 1 + 1 = pid
    · rw [← hpe, refsPidB_initP_self,
        filter_zero_of_forall_false _ _ (fun e he => hnoref e he)]
      simp
    · rw [refsPidB_initP_ne pid _ _ _ _ hpe]
      have h1 := filter_tail_le (refsPidB pid) e0 rest
      rw [← hev] at h1
      have h2 := huniq pid hp
      simp only [if_neg, Bool.false_eq_true, if_false]
      omega
  · -- queues
    intro r
    have hgq : getR (runGen cfg stream { s with now := t, events := rest }) r =
        getR s r := by rw [getR_runGen, getR_popped]
    rw [hgq, hevs]
    refine ⟨(hqs r).1, ?_⟩
    intro x hx
    obtain ⟨hx2, ⟨g, hg, hgs⟩, hx0⟩ := (hqs r).2 x hx
    have hxne : x ≠ s.genCount + 1 + 1 := by
      intro hxe
      rw [hxe, hfresh] at hg
      cases hg
    refine ⟨hx2, ⟨g, ?_, hgs⟩, ?_⟩
    · rw [hflx x, if_neg hxne]
      exact hg
    · rw [filter_insertEv_length, filter_insertEv_length,
        refsPidB_resume_ne x 0 _ _ _ (by omega),
        refsPidB_initP_ne x _ _ _ _ (fun hh => hxne hh.symm)]
      have h1 := filter_tail_le (refsPidB x) e0 rest
      rw [← hev] at h1
      simp only [Bool.false_eq_true, if_false]
      omega
  · -- pid bounds
    intro pid f hf
    rw [hflx pid] at hf
    rw [hgen]
    by_cases hp : pid = s.genCount + 1 + 1
    · subst hp
      exact ⟨by omega, by omega⟩
    · rw [if_neg hp] at hf
      have := hbound pid f hf
      omega

/-- Popping the head event preserves the timing invariant (the clock
move to the event's due time does not feature in the invariant). -/
theorem inv10_popped (s : SimState) (t : Time) (e0 : Ev) (rest : List Ev)
    (hinv : Inv10 s) (hev : s.events = e0 :: rest) :
    Inv10 { s with now := t, events := rest } := by
  obtain ⟨hrecs, hstage, hevok, huniq, hqs, hbound⟩ := hinv
  refine ⟨hrecs, hstage, ?_, ?_, ?_, hbound⟩
  · intro e he
    exact hevok e (hev ▸ List.mem_cons_of_mem _ he)
  · intro pid hp
    show (rest.filter (refsPidB pid)).length ≤ 1
    have h1 := filter_tail_le (refsPidB pid) e0 rest
    rw [← hev] at h1
    have h2 := huniq pid hp
    omega
  · intro r
    refine ⟨(hqs r).1, ?_⟩
    intro x hx
    obtain ⟨hx2, hxf, hx0⟩ := (hqs r).2 x hx
    refine ⟨hx2, hxf, ?_⟩
    show (rest.filter (refsPidB x)).length = 0
    have h1 := filter_tail_le (refsPidB x) e0 rest
    rw [← hev] at h1
    omega

/-- Dispatching a monitor iteration preserves the timing invariant: it
only appends snapshots and re-arms the monitor timer, which references
no patient. -/
theorem inv10_runMonitor (cfg : Cfg) (s : SimState) (t : Time)
    (e0 : Ev) (rest : List Ev) (hinv : Inv10 s) (hev : s.events = e0 :: rest) :
    Inv10 (runMonitor cfg { s with now := t, events := rest }) := by
  obtain ⟨hrecs, hstage, hevok, huniq, hqs, hbound⟩ := hinv
  have hflx : (runMonitor cfg { s with now := t, events := rest }).flows =
      s.flows := rfl
  have hevs : (runMonitor cfg { s with now := t, events := rest }).events =
      insertEv ⟨t + cfg.monitor_interval, 1, s.nextSeq, .resume 1⟩ rest := rfl
  have hpt : (runMonitor cfg
      { s with now := t, events := rest }).metrics.patient_times =
      s.metrics.patient_times := rfl
  have hgen : (runMonitor cfg { s with now := t, events := rest }).genCount =
      s.genCount := rfl
  refine ⟨?_, ?_, ?_, ?_, ?_, ?_⟩
  · rw [hpt, hflx]
    exact hrecs
  · intro pid f hf
    rw [hflx] at hf
    exact hstage pid f hf
  · intro e he
    rw [hevs] at he
    rw [hflx]
    rcases mem_insertEv.mp he with rfl | he
    · exact evOK_resume_low _ _ _ _ _ (by omega)
    · exact hevok e (hev ▸ List.mem_cons_of_mem _ he)
  · intro pid hp
    rw [hevs, filter_insertEv_length, refsPidB_resume_ne pid 1 _ _ _ (by omega)]
    have h1 := filter_tail_le (refsPidB pid) e0 rest
    rw [← hev] at h1
    have h2 := huniq pid hp
    simp only [Bool.false_eq_true, if_false]
    omega
  · intro r
    have hgq : getR (runMonitor cfg { s with now := t, events := rest }) r =
        getR s r := by rw [getR_runMonitor, getR_popped]
    rw [hgq, hevs]
    refine ⟨(hqs r).1, ?_⟩
    intro x hx
    obtain ⟨hx2, hxf, hx0⟩ := (hqs r).2 x hx
    refine ⟨hx2, by rw [hflx]; exact hxf, ?_⟩
    rw [filter_insertEv_length, refsPidB_resume_ne x 1 _ _ _ (by omega)]
    have h1 := filter_tail_le (refsPidB x) e0 rest
    rw [← hev] at h1
    simp only [Bool.false_eq_true, if_false]
    omega
  · intro pid f hf
    rw [hflx] at hf
    rw [hgen]
    exact hbound pid f hf

theorem waitStage_inj (r r' : RName) (h : waitStage r = waitStage r') :
    r = r' := by
  cases r <;> cases r' <;> simp_all [waitStage]

theorem waitStage_ne_created (r : RName) : waitStage r ≠ Stage.created := by
  cases r <;> simp [waitStage]

theorem waitStage_ne_done (r : RName) : waitStage r ≠ Stage.done := by
  cases r <;> simp [waitStage]

theorem waitStage_ne_prepping (r : RName) : waitStage r ≠ Stage.prepping := by
  cases r <;> simp [waitStage]

theorem waitStage_ne_operating (r : RName) : waitStage r ≠ Stage.operating := by
  cases r <;> simp [waitStage]

theorem waitStage_ne_recovering (r : RName) : waitStage r ≠ Stage.recovering := by
  cases r <;> simp [waitStage]

/-- Dispatching a `Release` event preserves the timing invariant: the
only change is popping the queue head (a suspended patient with no
pending event) and scheduling its grant resumption. -/
theorem inv10_relDispatch (s : SimState) (r' : RName) (t : Time)
    (e0 : Ev) (rest : List Ev) (hinv : Inv10 s) (hev : s.events = e0 :: rest) :
    Inv10 (runRelDispatch { s with now := t, events := rest } r') := by
  have hpop := inv10_popped s t e0 rest hinv hev
  obtain ⟨hrecs, hstage, hevok, huniq, hqs, hbound⟩ := hinv
  unfold runRelDispatch
  cases hqe : (getR ({ s with now := t, events := rest }) r').queue with
  | nil => exact hpop
  | cons h t2 =>
    dsimp only
    rw [getR_popped] at hqe
    obtain ⟨hh2, ⟨fh, hfh, hfhs⟩, hh0⟩ :=
      (hqs r').2 h (by rw [hqe]; exact List.mem_cons_self _ _)
    have hnodup := (hqs r').1
    have hhnot2 : h ∉ t2 := by
      rw [hqe] at hnodup
      exact (List.nodup_cons.mp hnodup).1
    split
    · -- a unit is free: grant the head
      have hflx : (schedule (setR { s with now := t, events := rest } r'
          { getR { s with now := t, events := rest } r' with
            users := (getR { s with now := t, events := rest } r').users ++ [h],
            queue := t2 }) ({ s with now := t, events := rest } : SimState).now
          1 (.resume h)).flows = s.flows := by
        rw [schedule_flows, setR_flows]
      have hevs : (schedule (setR { s with now := t, events := rest } r'
          { getR { s with now := t, events := rest } r' with
            users := (getR { s with now := t, events := rest } r').users ++ [h],
            queue := t2 }) ({ s with now := t, events := rest } : SimState).now
          1 (.resume h)).events =
          insertEv ⟨t, 1, s.nextSeq, .resume h⟩ rest := by
        rw [schedule_events, setR_events, setR_nextSeq]
      refine ⟨?_, ?_, ?_, ?_, ?_, ?_⟩
      · rw [schedule_metrics, setR_metrics, hflx]
        exact hrecs
      · intro pid f hf
        rw [hflx] at hf
        exact hstage pid f hf
      · intro e he
        rw [hevs] at he
        rw [hflx]
        rcases mem_insertEv.mp he with rfl | he
        · constructor
          · intro pid' hp' hact
            exact Act.noConfusion hact
          · intro pid' hp' hact
            have hpe := Act.resume.inj hact
            subst hpe
            exact ⟨fh, hfh, hfhs ▸ waitStage_ne_created r',
              hfhs ▸ waitStage_ne_done r',
              fun hc => absurd (hfhs ▸ hc) (waitStage_ne_prepping r'),
              fun hc => absurd (hfhs ▸ hc) (waitStage_ne_operating r'),
              fun hc => absurd (hfhs ▸ hc) (waitStage_ne_recovering r')⟩
        · exact hevok e (hev ▸ List.mem_cons_of_mem _ he)
      · intro pid hp
        rw [hevs, filter_insertEv_length]
        by_cases hpe : h = pid
        · subst hpe
          rw [refsPidB_resume_self]
          have hz : (rest.filter (refsPidB h)).length = 0 := by
            have h1 := filter_tail_le (refsPidB h) e0 rest
            rw [← hev] at h1
            omega
          simp [hz]
        · rw [refsPidB_resume_ne pid h _ _ _ hpe]
          have h1 := filter_tail_le (refsPidB pid) e0 rest
          rw [← hev] at h1
          have h2 := huniq pid hp
          simp only [Bool.false_eq_true, if_false]
          omega
      · intro r
        rw [hevs, getR_schedule, getR_setR]
        by_cases hr : r = r'
        · rw [if_pos hr]
          constructor
          · show t2.Nodup
            rw [hqe] at hnodup
            exact (List.nodup_cons.mp hnodup).2
          · intro x hx
            have hxq : x ∈ (getR s r').queue := by
              rw [hqe]
              exact List.mem_cons_of_mem _ hx
            obtain ⟨hx2, hxf, hx0⟩ := (hqs r').2 x hxq
            refine ⟨hx2, by rw [hflx, hr]; exact hxf, ?_⟩
            rw [filter_insertEv_length]
            have hxh : x ≠ h := fun hc => hhnot2 (hc ▸ hx)
            rw [refsPidB_resume_ne x h _ _ _ (fun hc => hxh hc.symm)]
            have h1 := filter_tail_le (refsPidB x) e0 rest
            rw [← hev] at h1
            simp only [Bool.false_eq_true, if_false]
            omega
        · rw [if_neg hr, getR_popped]
          refine ⟨(hqs r).1, ?_⟩
          intro x hx
          obtain ⟨hx2, hxf, hx0⟩ := (hqs r).2 x hx
          refine ⟨hx2, by rw [hflx]; exact hxf, ?_⟩
          rw [filter_insertEv_length]
          have hxh : x ≠ h := by
            intro hc
            obtain ⟨g, hg, hgs⟩ := hxf
            rw [hc, hfh] at hg
            injection hg with hg
            rw [hg, hgs] at hfhs
            exact hr (waitStage_inj r r' hfhs)
          rw [refsPidB_resume_ne x h _ _ _ (fun hc => hxh hc.symm)]
          have h1 := filter_tail_le (refsPidB x) e0 rest
          rw [← hev] at h1
          simp only [Bool.false_eq_true, if_false]
          omega
      · intro pid f hf
        rw [hflx] at hf
        have hgen : (schedule (setR { s with now := t, events := rest } r'
            { getR { s with now := t, events := rest } r' with
              users := (getR { s with now := t, events := rest } r').users ++ [h],
              queue := t2 }) ({ s with now := t, events := rest } : SimState).now
            1 (.resume h)).genCount = s.genCount := by
          rw [schedule_genCount, setR_genCount]
        rw [hgen]
        exact hbound pid f hf
    · exact hpop

theorem schedule_nextSeq (s : SimState) (t : Time) (p : Nat) (a : Act) :
    (schedule s t p a).nextSeq = s.nextSeq + 1 := rfl

theorem release_events (s : SimState) (r' : RName) (pid : Nat) :
    (release s r' pid).events =
      insertEv ⟨s.now, 1, s.nextSeq, .relDispatch r'⟩ s.events := by
  unfold release
  rw [schedule_events, setR_events, setR_nextSeq]

theorem release_nextSeq (s : SimState) (r' : RName) (pid : Nat) :
    (release s r' pid).nextSeq = s.nextSeq + 1 := by
  unfold release
  rw [schedule_nextSeq, setR_nextSeq]

/-- The two possible outcomes of `request` at the event level: an
immediate grant schedules the requester's resumption at the current
time; a full pool leaves the event heap untouched. -/
theorem request_events_split (s : SimState) (r' : RName) (pid : Nat) :
    ((getR s r').users.length < (getR s r').capacity ∧ (getR s r').queue = [] ∧
      (request s r' pid).events =
        insertEv ⟨s.now, 1, s.nextSeq, .resume pid⟩ s.events) ∨
    (∃ h t2, (getR s r').users.length < (getR s r').capacity ∧
      (getR s r').queue = h :: t2 ∧
      (request s r' pid).events =
        insertEv ⟨s.now, 1, s.nextSeq, .resume h⟩ s.events) ∨
    (¬(getR s r').users.length < (getR s r').capacity ∧
      (request s r' pid).events = s.events) := by
  rcases request_split s r' pid with ⟨hg, hq, he⟩ | ⟨h, t2, hg, hq, he⟩ | ⟨hg, he⟩
  · exact Or.inl ⟨hg, hq,
      by rw [he, schedule_events, setR_events, setR_nextSeq]⟩
  · exact Or.inr (Or.inl ⟨h, t2, hg, hq,
      by rw [he, schedule_events, setR_events, setR_nextSeq]⟩)
  · exact Or.inr (Or.inr ⟨hg, by rw [he, setR_events]⟩)

theorem updFlow_self (s : SimState) (pid : Nat) (f : FlowState) :
    (updFlow s pid f).flows pid = some f := by
  show (if pid = pid then some f else s.flows pid) = some f
  rw [if_pos rfl]

theorem updFlow_other (s : SimState) (pid x : Nat) (f : FlowState) (h : x ≠ pid) :
    (updFlow s pid f).flows x = s.flows x := by
  show (if x = pid then some f else s.flows x) = s.flows x
  rw [if_neg h]

/-- `release` never touches any wait queue. -/
theorem release_queue (s : SimState) (r' : RName) (pid : Nat) (r : RName) :
    (getR (release s r' pid) r).queue = (getR s r).queue := by
  rw [release_resource]
  by_cases hr : r = r'
  · rw [if_pos hr, hr]
  · rw [if_neg hr]

/-- Updating the process table at a patient that has no pending event
and sits in no queue preserves the timing invariant, provided the new
flow state keeps the patient data, respects its stage relations and a
valid process id. -/
theorem inv10_updFlow (X : SimState) (pid : Nat) (f1 : FlowState)
    (hinv : Inv10 X)
    (hpat : ∀ g, X.flows pid = some g → g.patient = f1.patient)
    (hbnd : 2 ≤ pid ∧ pid ≤ X.genCount + 1)
    (hst : StageOK f1)
    (h0 : ∀ e ∈ X.events, refsPidB pid e = false)
    (hnq : ∀ r, pid ∉ (getR X r).queue) :
    Inv10 (updFlow X pid f1) := by
  obtain ⟨hrecs, hstage, hevok, huniq, hqs, hbound⟩ := hinv
  have hflq : (updFlow X pid f1).flows =
      fun x => if x = pid then some f1 else X.flows x := rfl
  have hflx : ∀ x, (updFlow X pid f1).flows x =
      if x = pid then some f1 else X.flows x := fun x => rfl
  refine ⟨?_, ?_, ?_, ?_, ?_, ?_⟩
  · show ∀ rcd ∈ X.metrics.patient_times, _
    rw [hflq]
    exact recs_update X.flows pid f1 _ hrecs hpat
  · intro p2 f2 hf2
    rw [hflx p2] at hf2
    by_cases hp : p2 = pid
    · rw [if_pos hp] at hf2
      injection hf2 with hf2
      rw [← hf2]
      exact hst
    · rw [if_neg hp] at hf2
      exact hstage p2 f2 hf2
  · intro e he
    rw [hflq]
    have he' : e ∈ X.events := he
    exact evOK_update_not_ref X.flows pid f1 e (hevok e he') (h0 e he')
  · intro p2 hp2
    exact huniq p2 hp2
  · intro r
    have hq : getR (updFlow X pid f1) r = getR X r := getR_updFlow X pid f1 r
    rw [hq]
    refine ⟨(hqs r).1, ?_⟩
    intro x hx
    obtain ⟨hx2, hxf, hx0⟩ := (hqs r).2 x hx
    have hxne : x ≠ pid := fun hc => hnq r (hc ▸ hx)
    refine ⟨hx2, ?_, hx0⟩
    obtain ⟨g, hg, hgs⟩ := hxf
    exact ⟨g, by rw [hflx x, if_neg hxne]; exact hg, hgs⟩
  · intro p2 f2 hf2
    rw [hflx p2] at hf2
    show 2 ≤ p2 ∧ p2 ≤ X.genCount + 1
    by_cases hp : p2 = pid
    · subst hp
      exact hbnd
    · rw [if_neg hp] at hf2
      exact hbound p2 f2 hf2

/-- Releasing a unit preserves the timing invariant: the user list is
not part of it, and the scheduled dispatch event references no
patient. -/
theorem inv10_release (X : SimState) (r' : RName) (pid : Nat)
    (hinv : Inv10 X) : Inv10 (release X r' pid) := by
  obtain ⟨hrecs, hstage, hevok, huniq, hqs, hbound⟩ := hinv
  have hflq : (release X r' pid).flows = X.flows := release_flows X r' pid
  have hmet : (release X r' pid).metrics = X.metrics := release_metrics X r' pid
  have hgen : (release X r' pid).genCount = X.genCount := release_genCount X r' pid
  have hevs : (release X r' pid).events =
      insertEv ⟨X.now, 1, X.nextSeq, .relDispatch r'⟩ X.events :=
    release_events X r' pid
  refine ⟨?_, ?_, ?_, ?_, ?_, ?_⟩
  · rw [hmet, hflq]
    exact hrecs
  · rw [hflq]
    exact hstage
  · intro e he
    rw [hflq]
    rw [hevs] at he
    rcases mem_insertEv.mp he with rfl | he
    · exact ⟨fun pid' hp' hact => Act.noConfusion hact,
        fun pid' hp' hact => Act.noConfusion hact⟩
    · exact hevok e he
  · intro pid' hp'
    rw [hevs, filter_insertEv_length, refsPidB_relDispatch]
    simpa using huniq pid' hp'
  · intro r
    rw [release_queue]
    refine ⟨(hqs r).1, ?_⟩
    intro x hx
    obtain ⟨hx2, hxf, hx0⟩ := (hqs r).2 x hx
    refine ⟨hx2, by rw [hflq]; exact hxf, ?_⟩
    rw [hevs, filter_insertEv_length, refsPidB_relDispatch]
    simpa using hx0
  · intro pid' f hf
    rw [hflq] at hf
    rw [hgen]
    exact hbound pid' f hf

/-- Scheduling the resumption of a patient that has no other pending
event and sits in no queue preserves the timing invariant, provided
the due time matches the patient's running timer. -/
theorem inv10_schedule_resume (X : SimState) (pid : Nat) (due : Time)
    (hinv : Inv10 X) (h2 : 2 ≤ pid)
    (hfl : ∃ f, X.flows pid = some f ∧ f.stage ≠ .created ∧ f.stage ≠ .done ∧
      (f.stage = .prepping → due = f.start_prep + f.patient.prep_time) ∧
      (f.stage = .operating → due = f.start_op + f.patient.op_time) ∧
      (f.stage = .recovering → due = f.start_rec + f.patient.rec_time))
    (h0 : (X.events.filter (refsPidB pid)).length = 0)
    (hnq : ∀ r, pid ∉ (getR X r).queue) :
    Inv10 (schedule X due 1 (.resume pid)) := by
  obtain ⟨hrecs, hstage, hevok, huniq, hqs, hbound⟩ := hinv
  have hflq : (schedule X due 1 (.resume pid)).flows = X.flows :=
    schedule_flows _ _ _ _
  have hmet : (schedule X due 1 (.resume pid)).metrics = X.metrics :=
    schedule_metrics _ _ _ _
  have hgen : (schedule X due 1 (.resume pid)).genCount = X.genCount :=
    schedule_genCount _ _ _ _
  have hevs : (schedule X due 1 (.resume pid)).events =
      insertEv ⟨due, 1, X.nextSeq, .resume pid⟩ X.events :=
    schedule_events _ _ _ _
  refine ⟨?_, ?_, ?_, ?_, ?_, ?_⟩
  · rw [hmet, hflq]
    exact hrecs
  · rw [hflq]
    exact hstage
  · intro e he
    rw [hflq]
    rw [hevs] at he
    rcases mem_insertEv.mp he with rfl | he
    · refine ⟨fun pid' hp' hact => Act.noConfusion hact, ?_⟩
      intro pid' hp' hact
      obtain ⟨f, hf, hc, hd, hp, ho, hr⟩ := hfl
      have hpe : pid = pid' := Act.resume.inj hact
      subst hpe
      exact ⟨f, hf, hc, hd, hp, ho, hr⟩
    · exact hevok e he
  · intro pid' hp'
    rw [hevs, filter_insertEv_length]
    by_cases hpe : pid' = pid
    · subst hpe
      rw [refsPidB_resume_self, h0]
      simp
    · rw [refsPidB_resume_ne pid' pid _ _ _ (fun hc => hpe hc.symm)]
      simpa using huniq pid' hp'
  · intro r
    have hq : getR (schedule X due 1 (.resume pid)) r = getR X r :=
      getR_schedule _ _ _ _ r
    rw [hq]
    refine ⟨(hqs r).1, ?_⟩
    intro x hx
    obtain ⟨hx2, hxf, hx0⟩ := (hqs r).2 x hx
    have hxne : pid ≠ x := fun hc => hnq r (hc ▸ hx)
    refine ⟨hx2, by rw [hflq]; exact hxf, ?_⟩
    rw [hevs, filter_insertEv_length, refsPidB_resume_ne x pid _ _ _ hxne]
    simpa using hx0
  · intro pid' f hf
    rw [hflq] at hf
    rw [hgen]
    exact hbound pid' f hf

/-- Requesting a unit for a patient that waits in the matching stage,
has no pending event and sits in no queue preserves the timing
invariant: with a free unit the queue head (the newcomer only when the
queue is empty) is granted and resumed — a head that, by the queue
invariant, also waits in the matching stage with no pending event and
no running timer — and otherwise the newcomer joins the queue tail. -/
theorem inv10_request (X : SimState) (r' : RName) (pid : Nat)
    (hinv : Inv10 X) (h2 : 2 ≤ pid)
    (hfl : ∃ f, X.flows pid = some f ∧ f.stage = waitStage r')
    (h0 : (X.events.filter (refsPidB pid)).length = 0)
    (hnq : ∀ r, pid ∉ (getR X r).queue) :
    Inv10 (request X r' pid) := by
  obtain ⟨hrecs, hstage, hevok, huniq, hqs, hbound⟩ := hinv
  have hflq : (request X r' pid).flows = X.flows := request_flows _ _ _
  have hmet : (request X r' pid).metrics = X.metrics := request_metrics _ _ _
  have hgen : (request X r' pid).genCount = X.genCount := request_genCount _ _ _
  rcases request_split X r' pid with
    ⟨hgu, hque, he⟩ | ⟨hd, t2, hgu, hque, he⟩ | ⟨hgu, he⟩
  · -- free unit, empty queue: the newcomer is granted and resumed
    have hevs : (request X r' pid).events =
        insertEv ⟨X.now, 1, X.nextSeq, .resume pid⟩ X.events := by
      rw [he, schedule_events, setR_events, setR_nextSeq]
    refine ⟨?_, ?_, ?_, ?_, ?_, ?_⟩
    · rw [hmet, hflq]
      exact hrecs
    · rw [hflq]
      exact hstage
    · intro e he2
      rw [hflq]
      rw [hevs] at he2
      rcases mem_insertEv.mp he2 with rfl | he2
      · refine ⟨fun pid' hp' hact => Act.noConfusion hact, ?_⟩
        intro pid' hp' hact
        obtain ⟨f, hf, hfs⟩ := hfl
        have hpe : pid = pid' := Act.resume.inj hact
        subst hpe
        refine ⟨f, hf, by rw [hfs]; exact waitStage_ne_created r',
          by rw [hfs]; exact waitStage_ne_done r', ?_, ?_, ?_⟩
        · intro hc
          rw [hfs] at hc
          exact absurd hc (waitStage_ne_prepping r')
        · intro hc
          rw [hfs] at hc
          exact absurd hc (waitStage_ne_operating r')
        · intro hc
          rw [hfs] at hc
          exact absurd hc (waitStage_ne_recovering r')
      · exact hevok e he2
    · intro pid' hp'
      rw [hevs, filter_insertEv_length]
      by_cases hpe : pid' = pid
      · subst hpe
        rw [refsPidB_resume_self, h0]
        simp
      · rw [refsPidB_resume_ne pid' pid _ _ _ (fun hc => hpe hc.symm)]
        simpa using huniq pid' hp'
    · intro r
      have hq : (getR (request X r' pid) r).queue = (getR X r).queue := by
        rw [he, getR_schedule, getR_setR]
        by_cases hr : r = r'
        · rw [if_pos hr, hr]
        · rw [if_neg hr]
      rw [hq]
      refine ⟨(hqs r).1, ?_⟩
      intro x hx
      obtain ⟨hx2, hxf, hx0⟩ := (hqs r).2 x hx
      have hxne : pid ≠ x := fun hc => hnq r (hc ▸ hx)
      refine ⟨hx2, by rw [hflq]; exact hxf, ?_⟩
      rw [hevs, filter_insertEv_length, refsPidB_resume_ne x pid _ _ _ hxne]
      simpa using hx0
    · intro pid' f hf
      rw [hflq] at hf
      rw [hgen]
      exact hbound pid' f hf
  · -- free unit, non-empty queue: the head is granted and resumed,
    -- the newcomer joins the tail
    have hdmem : hd ∈ (getR X r').queue := hque ▸ List.mem_cons_self hd t2
    obtain ⟨hd2, hdf, hd0⟩ := (hqs r').2 hd hdmem
    have hdnodup : hd ∉ t2 := by
      have hnd := (hqs r').1
      rw [hque] at hnd
      exact (List.nodup_cons.mp hnd).1
    have hpidq : pid ∉ (getR X r').queue := hnq r'
    have hpidne : pid ≠ hd := fun hc => hpidq (hc ▸ hdmem)
    have hpidt2 : pid ∉ t2 :=
      fun hc => hpidq (hque ▸ List.mem_cons_of_mem _ hc)
    have hevs : (request X r' pid).events =
        insertEv ⟨X.now, 1, X.nextSeq, .resume hd⟩ X.events := by
      rw [he, schedule_events, setR_events, setR_nextSeq]
    refine ⟨?_, ?_, ?_, ?_, ?_, ?_⟩
    · rw [hmet, hflq]
      exact hrecs
    · rw [hflq]
      exact hstage
    · intro e he2
      rw [hflq]
      rw [hevs] at he2
      rcases mem_insertEv.mp he2 with rfl | he2
      · refine ⟨fun pid' hp' hact => Act.noConfusion hact, ?_⟩
        intro pid' hp' hact
        obtain ⟨g, hg, hgs⟩ := hdf
        have hpe : hd = pid' := Act.resume.inj hact
        subst hpe
        refine ⟨g, hg, by rw [hgs]; exact waitStage_ne_created r',
          by rw [hgs]; exact waitStage_ne_done r', ?_, ?_, ?_⟩
        · intro hc
          rw [hgs] at hc
          exact absurd hc (waitStage_ne_prepping r')
        · intro hc
          rw [hgs] at hc
          exact absurd hc (waitStage_ne_operating r')
        · intro hc
          rw [hgs] at hc
          exact absurd hc (waitStage_ne_recovering r')
      · exact hevok e he2
    · intro pid' hp'
      rw [hevs, filter_insertEv_length]
      by_cases hpe : pid' = hd
      · subst hpe
        rw [refsPidB_resume_self, hd0]
        simp
      · rw [refsPidB_resume_ne pid' hd _ _ _ (fun hc => hpe hc.symm)]
        simpa using huniq pid' hp'
    · intro r
      by_cases hr : r = r'
      · have hq : (getR (request X r' pid) r).queue = t2 ++ [pid] := by
          rw [he, getR_schedule, getR_setR, if_pos hr]
        rw [hq]
        constructor
        · rw [List.nodup_append]
          refine ⟨?_, by simp, ?_⟩
          · have hnd := (hqs r').1
            rw [hque] at hnd
            exact (List.nodup_cons.mp hnd).2
          · intro a ha hb
            simp only [List.mem_singleton] at hb
            subst hb
            exact hpidt2 ha
        · intro x hx
          have hx' : x ∈ t2 ∨ x = pid := by
            have hx2 : x ∈ t2 ++ [pid] := hx
            simpa using hx2
          rcases hx' with hx' | rfl
          · have hxq : x ∈ (getR X r').queue :=
              hque ▸ List.mem_cons_of_mem _ hx'
            obtain ⟨hx2, hxf, hx0⟩ := (hqs r').2 x hxq
            have hxhd : x ≠ hd := fun hc => hdnodup (hc ▸ hx')
            refine ⟨hx2, ?_, ?_⟩
            · obtain ⟨g, hg, hgs⟩ := hxf
              rw [hflq, hr]
              exact ⟨g, hg, hgs⟩
            · rw [hevs, filter_insertEv_length,
                refsPidB_resume_ne x hd _ _ _ (fun hc => hxhd hc.symm)]
              simpa using hx0
          · refine ⟨h2, ?_, ?_⟩
            · rw [hflq]
              obtain ⟨f, hf, hfs⟩ := hfl
              exact ⟨f, hf, by rw [hfs, hr]⟩
            · rw [hevs, filter_insertEv_length,
                refsPidB_resume_ne x hd _ _ _ (fun hc => hpidne hc.symm)]
              simpa using h0
      · have hq : (getR (request X r' pid) r).queue = (getR X r).queue := by
          rw [he, getR_schedule, getR_setR, if_neg hr]
        rw [hq]
        refine ⟨(hqs r).1, ?_⟩
        intro x hx
        obtain ⟨hx2, hxf, hx0⟩ := (hqs r).2 x hx
        have hxhd : x ≠ hd := by
          intro hc
          obtain ⟨g1, hg1, hgs1⟩ := hxf
          obtain ⟨g2, hg2, hgs2⟩ := hdf
          rw [hc] at hg1
          rw [hg2] at hg1
          injection hg1 with hg1
          rw [← hg1] at hgs1
          rw [hgs1] at hgs2
          exact hr (waitStage_inj r r' hgs2)
        refine ⟨hx2, by rw [hflq]; exact hxf, ?_⟩
        rw [hevs, filter_insertEv_length,
          refsPidB_resume_ne x hd _ _ _ (fun hc => hxhd hc.symm)]
        simpa using hx0
    · intro pid' f hf
      rw [hflq] at hf
      rw [hgen]
      exact hbound pid' f hf
  · -- no free unit: the newcomer joins the tail
    have hevs : (request X r' pid).events = X.events := by
      rw [he, setR_events]
    refine ⟨?_, ?_, ?_, ?_, ?_, ?_⟩
    · rw [hmet, hflq]
      exact hrecs
    · rw [hflq]
      exact hstage
    · intro e he2
      rw [hflq]
      rw [hevs] at he2
      exact hevok e he2
    · intro pid' hp'
      rw [hevs]
      exact huniq pid' hp'
    · intro r
      by_cases hr : r = r'
      · have hq : (getR (request X r' pid) r).queue =
            (getR X r').queue ++ [pid] := by
          rw [he, getR_setR, if_pos hr]
        rw [hq]
        constructor
        · rw [List.nodup_append]
          refine ⟨(hqs r').1, by simp, ?_⟩
          intro a ha hb
          simp only [List.mem_singleton] at hb
          subst hb
          exact hnq r' ha
        · intro x hx
          have hx' : x ∈ (getR X r').queue ∨ x = pid := by
            have hx2 : x ∈ (getR X r').queue ++ [pid] := hx
            simpa using hx2
          rcases hx' with hx' | rfl
          · obtain ⟨hx2, hxf, hx0⟩ := (hqs r').2 x hx'
            refine ⟨hx2, ?_, ?_⟩
            · obtain ⟨g, hg, hgs⟩ := hxf
              rw [hflq, hr]
              exact ⟨g, hg, hgs⟩
            · rw [hevs]
              exact hx0
          · refine ⟨h2, ?_, ?_⟩
            · rw [hflq]
              obtain ⟨f, hf, hfs⟩ := hfl
              exact ⟨f, hf, by rw [hfs, hr]⟩
            · rw [hevs]
              exact h0
      · have hq : (getR (request X r' pid) r).queue = (getR X r).queue := by
          rw [he, getR_setR, if_neg hr]
        rw [hq]
        refine ⟨(hqs r).1, ?_⟩
        intro x hx
        obtain ⟨hx2, hxf, hx0⟩ := (hqs r).2 x hx
        refine ⟨hx2, by rw [hflq]; exact hxf, ?_⟩
        rw [hevs]
        exact hx0
    · intro pid' f hf
      rw [hflq] at hf
      rw [hgen]
      exact hbound pid' f hf

/-- Recording a finished patient: appending a record that decomposes
against some live patient's sampled durations, together with the
counter increment, preserves the timing invariant. -/
theorem inv10_record (X : SimState) (rcd : PatientRecord)
    (hinv : Inv10 X)
    (hw : ∃ pid f, X.flows pid = some f ∧ f.patient.id = rcd.id ∧
      recOK rcd f.patient) :
    Inv10 (setMetrics X { X.metrics with completed := X.metrics.completed + 1, patient_times := X.metrics.patient_times ++ [rcd] }) := by
  obtain ⟨hrecs, hstage, hevok, huniq, hqs, hbound⟩ := hinv
  refine ⟨?_, hstage, hevok, huniq, hqs, hbound⟩
  intro r2 hr2
  have hr2' : r2 ∈ X.metrics.patient_times ++ [rcd] := hr2
  rw [List.mem_append, List.mem_singleton] at hr2'
  rcases hr2' with hr2' | rfl
  · obtain ⟨pid, g, hg, hid, hrec⟩ := hrecs r2 hr2'
    exact ⟨pid, g, hg, hid, hrec⟩
  · exact hw

/-- Dispatching a patient's `Initialize` event preserves the timing
invariant: `arrival_to_prep_q` is set to the current time, which — by
the event invariant — is exactly the patient's creation time. -/
theorem inv10_patientInit (s : SimState) (n : Nat) (t : Time) (prio seq : Nat)
    (rest : List Ev) (hinv : Inv10 s)
    (hev : s.events = ⟨t, prio, seq, .initP (n + 2)⟩ :: rest) :
    Inv10 (runPatientInit { s with now := t, events := rest } (n + 2)) := by
  have hpop := inv10_popped s t _ rest hinv hev
  obtain ⟨hrecs, hstage, hevok, huniq, hqs, hbound⟩ := hinv
  have he0 : (⟨t, prio, seq, .initP (n + 2)⟩ : Ev) ∈ s.events := by
    rw [hev]; exact List.mem_cons_self _ _
  obtain ⟨f, hf, hfc, hft⟩ := (hevok _ he0).1 (n + 2) (by omega) rfl
  have hft' : t = f.patient.created_at := hft
  have hrest0 : (rest.filter (refsPidB (n + 2))).length = 0 := by
    have h2 := huniq (n + 2) (by omega)
    rw [hev, List.filter_cons_of_pos (refsPidB_initP_self _ _ _ _),
      List.length_cons] at h2
    omega
  have hnoref : ∀ e ∈ rest, refsPidB (n + 2) e = false :=
    forall_false_of_filter_zero _ _ hrest0
  have hnotq : ∀ r, (n + 2) ∉ (getR s r).queue := by
    intro r hmem
    obtain ⟨-, -, hz⟩ := (hqs r).2 _ hmem
    rw [hev, List.filter_cons_of_pos (refsPidB_initP_self _ _ _ _)] at hz
    simp at hz
  unfold runPatientInit
  cases hf2 : ({ s with now := t, events := rest } : SimState).flows (n + 2) with
  | none => exact hpop
  | some g =>
    dsimp only
    have hgf : f = g := by
      have hfg : some f = some g := by rw [← hf]; exact hf2
      injection hfg
    subst hgf
    refine inv10_request _ .prep (n + 2) ?_ (by omega) ?_ ?_ ?_
    · refine inv10_updFlow _ (n + 2) _ hpop ?_ ?_ ?_ ?_ ?_
      · intro g hg
        have hg' : some f = some g := by rw [← hf]; exact hg
        injection hg' with hg'
        subst hg'
        rfl
      · exact ⟨by omega, (hbound _ f hf).2⟩
      · exact hft'
      · exact hnoref
      · intro r
        rw [getR_popped]
        exact hnotq r
    · exact ⟨_, updFlow_self _ _ _, rfl⟩
    · exact hrest0
    · intro r
      rw [getR_updFlow, getR_popped]
      exact hnotq r

/-- Dispatching a patient's resumption event preserves the timing
invariant, at every stage of `patient_flow` and in both blocking
modes: each stage transition either starts the timer whose due time
the event invariant demands, or records the waits whose sum the
already-established stage relations pin down. -/
theorem inv10_patientResume (cfg : Cfg) (s : SimState) (n : Nat) (t : Time)
    (prio seq : Nat) (rest : List Ev) (hinv : Inv10 s)
    (hev : s.events = ⟨t, prio, seq, .resume (n + 2)⟩ :: rest) :
    Inv10 (runPatientResume cfg { s with now := t, events := rest } (n + 2)) := by
  have hpop := inv10_popped s t _ rest hinv hev
  obtain ⟨hrecs, hstage, hevok, huniq, hqs, hbound⟩ := hinv
  have he0 : (⟨t, prio, seq, .resume (n + 2)⟩ : Ev) ∈ s.events := by
    rw [hev]; exact List.mem_cons_self _ _
  obtain ⟨f, hf, hnc, hnd, hpr, hopr, hrc⟩ :=
    (hevok _ he0).2 (n + 2) (by omega) rfl
  have hrest0 : (rest.filter (refsPidB (n + 2))).length = 0 := by
    have h2 := huniq (n + 2) (by omega)
    rw [hev, List.filter_cons_of_pos (refsPidB_resume_self _ _ _ _),
      List.length_cons] at h2
    omega
  have hnoref : ∀ e ∈ rest, refsPidB (n + 2) e = false :=
    forall_false_of_filter_zero _ _ hrest0
  have hnotq : ∀ r, (n + 2) ∉ (getR s r).queue := by
    intro r hmem
    obtain ⟨-, -, hz⟩ := (hqs r).2 _ hmem
    rw [hev, List.filter_cons_of_pos (refsPidB_resume_self _ _ _ _)] at hz
    simp at hz
  have hnotq' : ∀ r,
      (n + 2) ∉ (getR ({ s with now := t, events := rest } : SimState) r).queue := by
    intro r
    rw [getR_popped]
    exact hnotq r
  have hbnd : 2 ≤ n + 2 ∧
      n + 2 ≤ ({ s with now := t, events := rest } : SimState).genCount + 1 :=
    ⟨by omega, (hbound _ f hf).2⟩
  have hpat : ∀ g,
      ({ s with now := t, events := rest } : SimState).flows (n + 2) = some g →
      g.patient = f.patient := by
    intro g hg
    have hg' : some f = some g := by rw [← hf]; exact hg
    injection hg' with hg'
    subst hg'
    rfl
  unfold runPatientResume
  cases hf2 : ({ s with now := t, events := rest } : SimState).flows (n + 2) with
  | none => exact hpop
  | some g =>
    dsimp only
    have hgf : f = g := by
      have hfg : some f = some g := by rw [← hf]; exact hf2
      injection hfg
    subst hgf
    cases hfs : f.stage with
    | created => exact absurd hfs hnc
    | done => exact absurd hfs hnd
    | waitPrep =>
      dsimp only
      have hA : f.arrival_to_prep_q = f.patient.created_at := by
        have h := hstage (n + 2) f hf
        unfold StageOK at h
        rw [hfs] at h
        exact h
      refine inv10_schedule_resume _ (n + 2) _ ?_ (by omega) ?_ ?_ ?_
      · refine inv10_updFlow _ (n + 2) _ hpop hpat hbnd ?_ hnoref hnotq'
        exact hA
      · refine ⟨_, updFlow_self _ _ _, ?_, ?_, ?_, ?_, ?_⟩
        · exact fun hc => Stage.noConfusion hc
        · exact fun hc => Stage.noConfusion hc
        · exact fun _ => rfl
        · exact fun hc => Stage.noConfusion hc
        · exact fun hc => Stage.noConfusion hc
      · exact hrest0
      · intro r
        rw [getR_updFlow, getR_popped]
        exact hnotq r
    | prepping =>
      dsimp only
      have hA : f.arrival_to_prep_q = f.patient.created_at := by
        have h := hstage (n + 2) f hf
        unfold StageOK at h
        rw [hfs] at h
        exact h
      have ht : t = f.start_prep + f.patient.prep_time := hpr hfs
      refine inv10_request _ .op (n + 2) ?_ (by omega) ?_ ?_ ?_
      · refine inv10_release _ .prep (n + 2) ?_
        refine inv10_updFlow _ (n + 2) _ hpop hpat hbnd ?_ hnoref hnotq'
        exact ⟨hA, ht⟩
      · refine ⟨{ f with stage := .waitOR, end_prep := t, arrival_to_or_q := t }, ?_, rfl⟩
        rw [release_flows]
        exact updFlow_self _ _ _
      · rw [release_events, filter_insertEv_length, refsPidB_relDispatch]
        simpa using hrest0
      · intro r
        rw [release_queue, getR_updFlow, getR_popped]
        exact hnotq r
    | waitOR =>
      dsimp only
      have hAB : f.arrival_to_prep_q = f.patient.created_at ∧
          f.arrival_to_or_q = f.start_prep + f.patient.prep_time := by
        have h := hstage (n + 2) f hf
        unfold StageOK at h
        rw [hfs] at h
        exact h
      refine inv10_schedule_resume _ (n + 2) _ ?_ (by omega) ?_ ?_ ?_
      · refine inv10_updFlow _ (n + 2) _ hpop hpat hbnd ?_ hnoref hnotq'
        exact hAB
      · refine ⟨_, updFlow_self _ _ _, ?_, ?_, ?_, ?_, ?_⟩
        · exact fun hc => Stage.noConfusion hc
        · exact fun hc => Stage.noConfusion hc
        · exact fun hc => Stage.noConfusion hc
        · exact fun _ => rfl
        · exact fun hc => Stage.noConfusion hc
      · exact hrest0
      · intro r
        rw [getR_updFlow, getR_popped]
        exact hnotq r
    | operating =>
      dsimp only
      have hAB : f.arrival_to_prep_q = f.patient.created_at ∧
          f.arrival_to_or_q = f.start_prep + f.patient.prep_time := by
        have h := hstage (n + 2) f hf
        unfold StageOK at h
        rw [hfs] at h
        exact h
      have ht : t = f.start_op + f.patient.op_time := hopr hfs
      by_cases hb : cfg.block_or_until_recovery = true
      · rw [if_pos hb]
        refine inv10_request _ .recovery (n + 2) ?_ (by omega) ?_ ?_ ?_
        · refine inv10_updFlow _ (n + 2) _ hpop hpat hbnd ?_ hnoref hnotq'
          exact ⟨hAB.1, hAB.2, ht⟩
        · exact ⟨_, updFlow_self _ _ _, rfl⟩
        · exact hrest0
        · intro r
          rw [getR_updFlow, getR_popped]
          exact hnotq r
      · rw [if_neg hb]
        refine inv10_request _ .recovery (n + 2) ?_ (by omega) ?_ ?_ ?_
        · refine inv10_release _ .op (n + 2) ?_
          refine inv10_updFlow _ (n + 2) _ hpop hpat hbnd ?_ hnoref hnotq'
          exact ⟨hAB.1, hAB.2, ht⟩
        · refine ⟨{ f with stage := .waitRec, end_op := t, arrival_to_rec_q := t }, ?_, rfl⟩
          rw [release_flows]
          exact updFlow_self _ _ _
        · rw [release_events, filter_insertEv_length, refsPidB_relDispatch]
          simpa using hrest0
        · intro r
          rw [release_queue, getR_updFlow, getR_popped]
          exact hnotq r
    | waitRec =>
      dsimp only
      have hABC : f.arrival_to_prep_q = f.patient.created_at ∧
          f.arrival_to_or_q = f.start_prep + f.patient.prep_time ∧
          f.arrival_to_rec_q = f.start_op + f.patient.op_time := by
        have h := hstage (n + 2) f hf
        unfold StageOK at h
        rw [hfs] at h
        exact h
      refine inv10_schedule_resume _ (n + 2) _ ?_ (by omega) ?_ ?_ ?_
      · refine inv10_updFlow _ (n + 2) _ hpop hpat hbnd ?_ hnoref hnotq'
        exact hABC
      · refine ⟨_, updFlow_self _ _ _, ?_, ?_, ?_, ?_, ?_⟩
        · exact fun hc => Stage.noConfusion hc
        · exact fun hc => Stage.noConfusion hc
        · exact fun hc => Stage.noConfusion hc
        · exact fun hc => Stage.noConfusion hc
        · exact fun _ => rfl
      · exact hrest0
      · intro r
        rw [getR_updFlow, getR_popped]
        exact hnotq r
    | recovering =>
      dsimp only
      have hABC : f.arrival_to_prep_q = f.patient.created_at ∧
          f.arrival_to_or_q = f.start_prep + f.patient.prep_time ∧
          f.arrival_to_rec_q = f.start_op + f.patient.op_time := by
        have h := hstage (n + 2) f hf
        unfold StageOK at h
        rw [hfs] at h
        exact h
      have ht : t = f.start_rec + f.patient.rec_time := hrc hfs
      have h1 := hABC.1
      have h2 := hABC.2.1
      have h3 := hABC.2.2
      by_cases hb : cfg.block_or_until_recovery = true
      · rw [if_pos hb]
        refine inv10_record _ _ ?_ ?_
        · refine inv10_release _ .op (n + 2) ?_
          refine inv10_release _ .recovery (n + 2) ?_
          refine inv10_updFlow _ (n + 2) _ hpop hpat hbnd ?_ hnoref hnotq'
          exact trivial
        · refine ⟨n + 2, { f with stage := .done, end_rec := t }, ?_, rfl, ?_⟩
          · rw [release_flows, release_flows]
            exact updFlow_self _ _ _
          · show t - f.patient.created_at =
              f.start_prep - f.arrival_to_prep_q + f.patient.prep_time +
              (f.start_op - f.arrival_to_or_q) + f.patient.op_time +
              (f.start_rec - f.arrival_to_rec_q) + f.patient.rec_time
            linarith
      · rw [if_neg hb]
        refine inv10_record _ _ ?_ ?_
        · refine inv10_release _ .recovery (n + 2) ?_
          refine inv10_updFlow _ (n + 2) _ hpop hpat hbnd ?_ hnoref hnotq'
          exact trivial
        · refine ⟨n + 2, { f with stage := .done, end_rec := t }, ?_, rfl, ?_⟩
          · rw [release_flows]
            exact updFlow_self _ _ _
          · show t - f.patient.created_at =
              f.start_prep - f.arrival_to_prep_q + f.patient.prep_time +
              (f.start_op - f.arrival_to_or_q) + f.patient.op_time +
              (f.start_rec - f.arrival_to_rec_q) + f.patient.rec_time
            linarith

/-- One scheduler step preserves the timing invariant, whatever event
comes up. -/
theorem step_inv10 (cfg : Cfg) (stream : Nat → ℚ) (s : SimState)
    (h : Inv10 s) : Inv10 (step cfg stream s) := by
  unfold step
  by_cases hstop : s.stopped = true
  · rw [if_pos hstop]; exact h
  rw [if_neg hstop]
  cases hev : s.events with
  | nil => exact h
  | cons e rest =>
    rcases e with ⟨t, prio, seq, act⟩
    cases act with
    | untilEvt =>
      have hpop := inv10_popped s t ⟨t, prio, seq, .untilEvt⟩ rest h hev
      obtain ⟨h1, h2, h3, h4, h5, h6⟩ := hpop
      refine ⟨h1, h2, h3, h4, ?_, h6⟩
      intro r
      cases r
      · exact h5 .prep
      · exact h5 .op
      · exact h5 .recovery
    | relDispatch r' =>
      simp only [dispatch]
      exact inv10_relDispatch s r' t _ rest h hev
    | initP pid =>
      match pid with
      | 0 =>
        simp only [dispatch]
        exact inv10_runGen cfg stream s t _ rest h hev
      | 1 =>
        simp only [dispatch]
        exact inv10_runMonitor cfg s t _ rest h hev
      | (n + 2) =>
        simp only [dispatch]
        exact inv10_patientInit s n t prio seq rest h hev
    | resume pid =>
      match pid with
      | 0 =>
        simp only [dispatch]
        exact inv10_runGen cfg stream s t _ rest h hev
      | 1 =>
        simp only [dispatch]
        exact inv10_runMonitor cfg s t _ rest h hev
      | (n + 2) =>
        simp only [dispatch]
        exact inv10_patientResume cfg s n t prio seq rest h hev

/-- The initial state satisfies the timing invariant: no records, no
patient processes, and only the generator, monitor and horizon events
are pending. -/
theorem inv10_init (cfg : Cfg) : Inv10 (initState cfg) := by
  refine ⟨?_, ?_, ?_, ?_, ?_, ?_⟩
  · intro rcd hrcd
    exact absurd hrcd (List.not_mem_nil _)
  · intro pid f hf
    exact Option.noConfusion hf
  · intro e he
    rcases mem_insertEv.mp he with rfl | he
    · exact ⟨fun pid' hp' hact => Act.noConfusion hact,
        fun pid' hp' hact => Act.noConfusion hact⟩
    rcases mem_insertEv.mp he with rfl | he
    · refine ⟨?_, fun pid' hp' hact => Act.noConfusion hact⟩
      intro pid' hp' hact
      have := Act.initP.inj hact
      omega
    rcases mem_insertEv.mp he with rfl | he
    · refine ⟨?_, fun pid' hp' hact => Act.noConfusion hact⟩
      intro pid' hp' hact
      have := Act.initP.inj hact
      omega
    · exact absurd he (List.not_mem_nil _)
  · intro pid hp
    have hall : ∀ e ∈ (initState cfg).events, refsPidB pid e = false := by
      intro e he
      rcases mem_insertEv.mp he with rfl | he
      · exact refsPidB_untilEvt _ _ _ _
      rcases mem_insertEv.mp he with rfl | he
      · exact refsPidB_initP_ne _ _ _ _ _ (by omega)
      rcases mem_insertEv.mp he with rfl | he
      · exact refsPidB_initP_ne _ _ _ _ _ (by omega)
      · exact absurd he (List.not_mem_nil _)
    have h0 : ((initState cfg).events.filter (refsPidB pid)).length = 0 :=
      filter_zero_of_forall_false _ _ hall
    omega
  · intro r
    cases r
    · exact ⟨List.nodup_nil, fun x hx => absurd hx (List.not_mem_nil _)⟩
    · exact ⟨List.nodup_nil, fun x hx => absurd hx (List.not_mem_nil _)⟩
    · exact ⟨List.nodup_nil, fun x hx => absurd hx (List.not_mem_nil _)⟩
  · intro pid f hf
    exact Option.noConfusion hf

/-- C10: every recorded patient timing record satisfies
`total_time = prep_wait + prep_time + or_wait + op_time + rec_wait +
rec_time` against the sampled service durations of the patient it
records, in both blocking modes: the stage transitions of
`patient_flow` consume no time besides the three timers and the three
queueing waits. -/
theorem claim10_total_time_decomposition (cfg : Cfg) (stream : Nat → ℚ)
    (fuel : Nat) :
    ∀ rcd ∈ (runState cfg stream fuel).metrics.patient_times,
      ∃ pid f, (runState cfg stream fuel).flows pid = some f ∧
        f.patient.id = rcd.id ∧
        rcd.total_time = rcd.prep_wait + f.patient.prep_time + rcd.or_wait +
          f.patient.op_time + rcd.rec_wait + f.patient.rec_time :=
  (runSteps_invariant cfg stream Inv10
    (fun s0 h0 => step_inv10 cfg stream s0 h0) fuel (initState cfg)
    (inv10_init cfg)).1

set_option maxRecDepth 400000 in
/-- Concrete instantiation of the timing decomposition: the record of
the single no-contention patient (total 23, waits 0) decomposes
against its sampled durations 10 + 5 + 8. -/
theorem claim10_total_time_decomposition_witness :
    (⟨1, 0, 23, 23, 0, 0, 0⟩ : PatientRecord) ∈
      (runState cfgSingleBlock streamOnes 40).metrics.patient_times ∧
    ∃ pid f, (runState cfgSingleBlock streamOnes 40).flows pid = some f ∧
      f.patient.id = (⟨1, 0, 23, 23, 0, 0, 0⟩ : PatientRecord).id ∧
      (⟨1, 0, 23, 23, 0, 0, 0⟩ : PatientRecord).total_time =
        (⟨1, 0, 23, 23, 0, 0, 0⟩ : PatientRecord).prep_wait +
          f.patient.prep_time +
        (⟨1, 0, 23, 23, 0, 0, 0⟩ : PatientRecord).or_wait +
          f.patient.op_time +
        (⟨1, 0, 23, 23, 0, 0, 0⟩ : PatientRecord).rec_wait +
          f.patient.rec_time :=
  ⟨by with_unfolding_all decide,
    claim10_total_time_decomposition cfgSingleBlock streamOnes 40
      ⟨1, 0, 23, 23, 0, 0, 0⟩ (by with_unfolding_all decide)⟩

end HospitalSim
